import Mathlib

/-!
Verification of the LuminNexus shared-utilities package: a shallow embedding
of `converters/type_converters.py`, `html/markdown_converter.py` and
`html/table_renderer.py`, together with theorems settling the specification
claims about them.

Modelling conventions:
* Python values are embedded as the inductive `PyVal`; machine floats are
  modelled exactly as decimal-scaled integers `m * 10 ^ e` (the claims under
  study only exercise small literals, infinities and NaN, where this model
  agrees with CPython).
* Fallible Python code returns `Except PyErr`; an uncaught exception is an
  `Except.error`.
* Whitespace predicates use the ASCII whitespace set (the inputs of every
  claim are ASCII).
-/

namespace LuminNexus

/-- ASCII approximation of the Python whitespace class used by `str.strip`
and the regular-expression class `\s`. -/
def isPySpace (c : Char) : Bool :=
  c = ' ' || c = '\t' || c = '\n' || c = '\r' || c = Char.ofNat 11 || c = Char.ofNat 12

/-- Python `str.strip()` on a character list: drop leading and trailing
whitespace. -/
def pyStripL (cs : List Char) : List Char :=
  ((cs.dropWhile isPySpace).reverse.dropWhile isPySpace).reverse

/-- Python `str.strip()`. -/
def pyStrip (s : String) : String :=
  String.mk (pyStripL s.toList)

/-- Value of an ASCII decimal digit, `none` for any other character. -/
def digitVal? (c : Char) : Option Nat :=
  if '0' ≤ c ∧ c ≤ '9' then some (c.toNat - 48) else none

/-- Fold a digit string into a number; `none` as soon as a non-digit is hit. -/
def parseDigitsAux (acc : Nat) : List Char → Option Nat
  | [] => some acc
  | c :: cs =>
    match digitVal? c with
    | some d => parseDigitsAux (acc * 10 + d) cs
    | none => none

/-- Parse a nonempty all-digit string. -/
def parseDigits (cs : List Char) : Option Nat :=
  match cs with
  | [] => none
  | _ => parseDigitsAux 0 cs

/-- Decimal digits of a natural number (fuel-based so that it reduces in the
kernel); the fuel `n + 1` always suffices. -/
def natReprAux : Nat → Nat → List Char
  | 0, _ => []
  | f + 1, n =>
    if n < 10 then [Char.ofNat (48 + n)]
    else natReprAux f (n / 10) ++ [Char.ofNat (48 + n % 10)]

/-- Decimal representation of a natural number, as produced by Python
`str(int)`. -/
def natRepr (n : Nat) : List Char := natReprAux (n + 1) n

/-- Decimal representation of an integer, as produced by Python `str(int)`. -/
def intRepr (n : Int) : List Char :=
  if n < 0 then '-' :: natRepr n.natAbs else natRepr n.natAbs

instance {ε α : Type} [DecidableEq ε] [DecidableEq α] :
    DecidableEq (Except ε α) := fun x y =>
  match x, y with
  | .ok a, .ok b =>
    if h : a = b then isTrue (by rw [h]) else isFalse (by simp [h])
  | .error a, .error b =>
    if h : a = b then isTrue (by rw [h]) else isFalse (by simp [h])
  | .ok _, .error _ => isFalse (by simp)
  | .error _, .ok _ => isFalse (by simp)

/-- Python error classes that the embedded code can raise. -/
inductive PyErr where
  | valueError
  | typeError
  | overflowError
  | invalidOperation
deriving DecidableEq, Repr

/-- Python `int(string)`: strip whitespace, optional sign, then a nonempty
run of decimal digits (underscore separators of CPython are not modelled;
no claim input contains them).  Raises `ValueError` otherwise. -/
def pyIntParse (s : String) : Except PyErr Int :=
  match pyStripL s.toList with
  | [] => .error .valueError
  | c :: rest =>
    if c = '-' then
      match parseDigits rest with
      | some n => .ok (-(n : Int))
      | none => .error .valueError
    else if c = '+' then
      match parseDigits rest with
      | some n => .ok (n : Int)
      | none => .error .valueError
    else
      match parseDigits (c :: rest) with
      | some n => .ok (n : Int)
      | none => .error .valueError

/-! ## HTML entity decoding (`html.unescape`)

`html.unescape` handles the full HTML5 named-entity table; we model the
numeric character references and the named entities that occur in this
repository's data and tests (`amp`, `lt`, `gt`, `quot`, `apos`, `nbsp`),
all requiring the terminating semicolon.  No claim of this development
depends on the remainder of the table. -/

/-- Value of a hexadecimal digit. -/
def hexVal? (c : Char) : Option Nat :=
  if '0' ≤ c ∧ c ≤ '9' then some (c.toNat - 48)
  else if 'a' ≤ c ∧ c ≤ 'f' then some (c.toNat - 87)
  else if 'A' ≤ c ∧ c ≤ 'F' then some (c.toNat - 55)
  else none

/-- Fold hex digits into a number. -/
def parseHexAux (acc : Nat) : List Char → Option Nat
  | [] => some acc
  | c :: cs =>
    match hexVal? c with
    | some d => parseHexAux (acc * 16 + d) cs
    | none => none

/-- Turn a decoded code point into a character (invalid code points become
the replacement character, as `html.unescape` does for the common cases). -/
def charOfCodePoint (n : Nat) : Char :=
  if h : n < 55296 ∨ (57343 < n ∧ n < 1114112) then Char.ofNatAux n h
  else Char.ofNat 65533

/-- Try to decode one character/entity reference immediately after a `&`;
returns the decoded character and the remaining input. -/
def entity? (cs : List Char) : Option (Char × List Char) :=
  match cs with
  | '#' :: rest =>
    match rest with
    | 'x' :: rest2 =>
      let ds := rest2.takeWhile (fun c => hexVal? c ≠ none)
      (match ds, rest2.dropWhile (fun c => hexVal? c ≠ none) with
       | [], _ => none
       | _, ';' :: rest3 =>
         (parseHexAux 0 ds).map fun n => (charOfCodePoint n, rest3)
       | _, _ => none)
    | 'X' :: rest2 =>
      let ds := rest2.takeWhile (fun c => hexVal? c ≠ none)
      (match ds, rest2.dropWhile (fun c => hexVal? c ≠ none) with
       | [], _ => none
       | _, ';' :: rest3 =>
         (parseHexAux 0 ds).map fun n => (charOfCodePoint n, rest3)
       | _, _ => none)
    | _ =>
      let ds := rest.takeWhile (fun c => digitVal? c ≠ none)
      (match ds, rest.dropWhile (fun c => digitVal? c ≠ none) with
       | [], _ => none
       | _, ';' :: rest3 =>
         (parseDigitsAux 0 ds).map fun n => (charOfCodePoint n, rest3)
       | _, _ => none)
  | _ =>
    if ("amp;".toList).isPrefixOf cs then some ('&', cs.drop 4)
    else if ("lt;".toList).isPrefixOf cs then some ('<', cs.drop 3)
    else if ("gt;".toList).isPrefixOf cs then some ('>', cs.drop 3)
    else if ("quot;".toList).isPrefixOf cs then some ('"', cs.drop 5)
    else if ("apos;".toList).isPrefixOf cs then some (Char.ofNat 39, cs.drop 5)
    else if ("nbsp;".toList).isPrefixOf cs then some (Char.ofNat 160, cs.drop 5)
    else none

/-- `html.unescape` scanner; exhausted fuel returns the input unchanged and
the initial fuel `length + 1` always suffices (every step consumes at least
one character). -/
def unescAux : Nat → List Char → List Char
  | 0, cs => cs
  | f + 1, cs =>
    match cs with
    | [] => []
    | c :: rest =>
      if c = '&' then
        match entity? rest with
        | some (ch, rest2) => ch :: unescAux f rest2
        | none => '&' :: unescAux f rest
      else c :: unescAux f rest

/-- `html.unescape` on a character list. -/
def htmlUnescapeL (cs : List Char) : List Char :=
  unescAux (cs.length + 1) cs

/-- `html.unescape`. -/
def htmlUnescape (s : String) : String :=
  String.mk (htmlUnescapeL s.toList)

/-! ## Final cleanup (`_clean_and_format`)

The source applies, in order:
`re.sub(r"\n\s*\n", "\n\n", text)`, `re.sub(r" +", " ", text)`,
`html.unescape`, and `text.strip() + "\n"`.

For the first substitution: `re.sub` replaces leftmost non-overlapping
matches, and `\s*` is greedy.  Inside a maximal whitespace run the leftmost
match starts at the run's first newline and (by greediness) ends at the
run's last newline, after which the remainder of the run has no further
newline and hence no further match; runs with fewer than two newlines
contain no match at all.  The total effect is therefore: in every maximal
whitespace run containing at least two newlines, the segment from the first
to the last newline (inclusive) is replaced by exactly two newlines.
`collapseBlankL` below implements exactly that run-wise description with a
structurally recursive accumulator machine. -/

/-- Number of newline characters in a list. -/
def nlCount (cs : List Char) : Nat := cs.countP (· = '\n')

/-- The (whitespace) characters of a run after its last newline. -/
def afterLastNl (r : List Char) : List Char :=
  (r.reverse.takeWhile (· ≠ '\n')).reverse

/-- Effect of `re.sub(r"\n\s*\n", "\n\n", -)` on one maximal whitespace
run. -/
def procRun (r : List Char) : List Char :=
  if nlCount r ≤ 1 then r
  else r.takeWhile (· ≠ '\n') ++ '\n' :: '\n' :: afterLastNl r

/-- Accumulator machine for `collapseBlankL`: `buf` holds the current
whitespace run in reverse. -/
def cbAux : List Char → List Char → List Char
  | buf, [] => procRun buf.reverse
  | buf, c :: cs =>
    if isPySpace c then cbAux (c :: buf) cs
    else procRun buf.reverse ++ c :: cbAux [] cs

/-- `re.sub(r"\n\s*\n", "\n\n", -)` on a character list. -/
def collapseBlankL (cs : List Char) : List Char := cbAux [] cs

/-- Accumulator machine for `re.sub(r" +", " ", -)`: the flag records
whether the previous character was a space. -/
def csAux : Bool → List Char → List Char
  | _, [] => []
  | prevSp, c :: cs =>
    if c = ' ' then
      if prevSp then csAux true cs else ' ' :: csAux true cs
    else c :: csAux false cs

/-- `re.sub(r" +", " ", -)` on a character list. -/
def collapseSpacesL (cs : List Char) : List Char := csAux false cs

/-- `_clean_and_format`: collapse blank-ish line runs, collapse space runs,
decode HTML entities, strip, and append one newline. -/
def clean_and_format (s : String) : String :=
  String.mk (pyStripL (htmlUnescapeL (collapseSpacesL (collapseBlankL s.toList)))) ++ "\n"

/-! ## Embedding of `converters/type_converters.py`

Python machine floats are modelled exactly as `m * 10 ^ e` with integer
`m`, `e` (plus infinities and NaN).  All claim inputs are short decimal
literals, infinities, NaN, booleans or small integers, on which this
model agrees with CPython; binary rounding of the 64-bit format is not
modelled. -/

/-- A Python `float` value. -/
inductive PyFloat where
  | finite (m : Int) (e : Int)
  | inf (neg : Bool)
  | nan
deriving DecidableEq, Repr

/-- A Python value, as passed to the coercion helpers. -/
inductive PyVal where
  | none
  | bool (b : Bool)
  | int (n : Int)
  | float (f : PyFloat)
  | str (s : String)
  | list (elems : List String)
deriving DecidableEq, Repr

/-- `|m * 10 ^ e| ≥ bound`, computed with integer arithmetic only. -/
def scaledAbsGe (m e : Int) (bound : Nat) : Bool :=
  if 0 ≤ e then m.natAbs * 10 ^ e.toNat ≥ bound
  else m.natAbs ≥ bound * 10 ^ (-e).toNat

/-- `2 ^ 1024`, written as a numeral so that kernel evaluation does not
need to unfold a large exponentiation. -/
def floatMaxBound : Nat :=
  179769313486231590772930519078902473361797697894230657273430081157732675805500963132708477322407536021120113879871393357658789768814416622492847430639474124377767893424865485276302219601246094119453082952085005768838150682342462881473913110540827237163350510684586298239947245938479716304835356329624224137216

/-- Overflow threshold of the 64-bit float format (approximated by
`2 ^ 1024`; no claim input sits near the boundary). -/
def floatOverflows (m e : Int) : Bool :=
  scaledAbsGe m e floatMaxBound

/-- Python `float(string)`: optional surrounding whitespace and sign, then
`inf`/`infinity`/`nan` (case-insensitive) or a decimal literal with
optional fraction and exponent.  Overflowing literals become infinities,
as in CPython; failures raise `ValueError`. -/
def pyParseFloat (s : String) : Except PyErr PyFloat :=
  match pyStripL s.toList with
  | [] => .error .valueError
  | c :: rest =>
    let (neg, body) :=
      if c = '-' then (true, rest)
      else if c = '+' then (false, rest)
      else (false, c :: rest)
    let lower := body.map Char.toLower
    if lower = "inf".toList ∨ lower = "infinity".toList then
      .ok (.inf neg)
    else if lower = "nan".toList then
      .ok .nan
    else
      let intDigits := body.takeWhile (fun c => digitVal? c ≠ none)
      let afterInt := body.dropWhile (fun c => digitVal? c ≠ none)
      let (fracDigits, afterFrac) :=
        match afterInt with
        | '.' :: r => (r.takeWhile (fun c => digitVal? c ≠ none),
                       r.dropWhile (fun c => digitVal? c ≠ none))
        | _ => ([], afterInt)
      if intDigits.isEmpty ∧ fracDigits.isEmpty then .error .valueError
      else
        let mant : Int := (parseDigitsAux 0 (intDigits ++ fracDigits)).getD 0
        let mant : Int := if neg then -mant else mant
        let fexp : Int := -(fracDigits.length : Int)
        match afterFrac with
        | [] =>
          if floatOverflows mant fexp then .ok (.inf neg)
          else .ok (.finite mant fexp)
        | e :: r =>
          if e = 'e' ∨ e = 'E' then
            let (eneg, eds) :=
              match r with
              | '-' :: r2 => (true, r2)
              | '+' :: r2 => (false, r2)
              | _ => (false, r)
            match parseDigits eds with
            | Option.none => .error .valueError
            | some ev =>
              let ev : Int := if eneg then -(ev : Int) else (ev : Int)
              if floatOverflows mant (fexp + ev) then .ok (.inf neg)
              else .ok (.finite mant (fexp + ev))
          else .error .valueError

/-- Python `str(int)`. -/
def pyStrOfInt (n : Int) : String := String.mk (intRepr n)

/-- Python `str(bool)`. -/
def pyStrOfBool (b : Bool) : String := if b then "True" else "False"

/-- Python `str(float)` for the decimal-scaled model: the exact decimal
expansion (CPython prints the shortest round-tripping decimal, which is
the literal the value was built from in this model). -/
def pyStrOfFloat : PyFloat → String
  | .inf neg => if neg then "-inf" else "inf"
  | .nan => "nan"
  | .finite m e =>
    let sign := if m < 0 then "-" else ""
    let digits := natRepr m.natAbs
    if 0 ≤ e then
      sign ++ String.mk (digits ++ List.replicate e.toNat '0') ++ ".0"
    else
      let k := (-e).toNat
      let padded :=
        if digits.length ≤ k then List.replicate (k + 1 - digits.length) '0' ++ digits
        else digits
      sign ++ String.mk (padded.take (padded.length - k)) ++ "." ++
        String.mk (padded.drop (padded.length - k))

/-- Python `float(value)` as used by `safe_int`: bools and ints convert
exactly (huge ints raise `OverflowError`), floats pass through, strings
are parsed, every other type raises `TypeError`. -/
def pyFloatOfVal : PyVal → Except PyErr PyFloat
  | .none => .error .typeError
  | .bool b => .ok (.finite (if b then 1 else 0) 0)
  | .int n => if floatOverflows n 0 then .error .overflowError else .ok (.finite n 0)
  | .float f => .ok f
  | .str s => pyParseFloat s
  | .list _ => .error .typeError

/-- Python `int(float)`: truncation toward zero; `nan` raises
`ValueError`, infinities raise `OverflowError`. -/
def pyIntOfFloat : PyFloat → Except PyErr Int
  | .nan => .error .valueError
  | .inf _ => .error .overflowError
  | .finite m e =>
    if 0 ≤ e then .ok (m * 10 ^ e.toNat)
    else .ok (m.tdiv (10 ^ (-e).toNat))

/-- Was this exception class caught by `except (ValueError, TypeError)`? -/
def caughtByValueTypeError : PyErr → Bool
  | .valueError => true
  | .typeError => true
  | _ => false

/-- `safe_int` from `type_converters.py`: `None` returns `None`, otherwise
`int(float(value))` with `except (ValueError, TypeError)` returning
`None`; any other exception (notably `OverflowError`) propagates. -/
def safe_int (v : PyVal) : Except PyErr (Option Int) :=
  match v with
  | .none => .ok Option.none
  | v =>
    match pyFloatOfVal v with
    | .error e => if caughtByValueTypeError e then .ok Option.none else .error e
    | .ok f =>
      match pyIntOfFloat f with
      | .error e => if caughtByValueTypeError e then .ok Option.none else .error e
      | .ok n => .ok (some n)

/-- `safe_str` from `type_converters.py`: strings are stripped (empty
result maps to `None`), everything else maps to `None`; the function can
raise nothing, which the `Except` result type records explicitly. -/
def safe_str (v : PyVal) : Except PyErr (Option String) :=
  match v with
  | .str s =>
    let val := pyStrip s
    if val = "" then .ok Option.none else .ok (some val)
  | _ => .ok Option.none

/-! ## The `decimal.Decimal` model used by `safe_decimal`

A finite `Decimal` is a coefficient/exponent pair denoting
`coeff * 10 ^ exp` (so `Decimal("0.99990")` is `fin 99990 (-5)`), plus
infinities and quiet NaN.  Only the operations `safe_decimal` performs are
modelled: construction from a string, subtraction of the literal
`0.0001`, `quantize(Decimal("1.00000"), ROUND_HALF_UP)` under the default
context precision of 28 significant digits, `abs`, and ordered comparison
(which, as in the `decimal` module, signals `InvalidOperation` on NaN).
Exact subtraction is used: the default context only rounds a difference
that needs more than 28 digits, which no claim input approaches. -/

/-- A `decimal.Decimal` value. -/
inductive PyDec where
  | fin (coeff : Int) (exp : Int)
  | inf (neg : Bool)
  | nan
deriving DecidableEq, Repr

/-- Number of decimal digits of a coefficient (`0` has one digit). -/
def decDigits (n : Nat) : Nat := (natRepr n).length

/-- `decimal.Decimal(string)`: optional sign, then `Infinity`/`Inf`/`NaN`
(case-insensitive) or digits with optional fraction and exponent.
Returns `none` for strings the constructor rejects (the construction
error class is irrelevant here: `safe_decimal` catches every exception at
this point). -/
def pyDecParse (s : String) : Option PyDec :=
  match pyStripL s.toList with
  | [] => Option.none
  | c :: rest =>
    let (neg, body) :=
      if c = '-' then (true, rest)
      else if c = '+' then (false, rest)
      else (false, c :: rest)
    let lower := body.map Char.toLower
    if lower = "inf".toList ∨ lower = "infinity".toList then
      some (.inf neg)
    else if lower = "nan".toList then
      some .nan
    else
      let intDigits := body.takeWhile (fun c => digitVal? c ≠ none)
      let afterInt := body.dropWhile (fun c => digitVal? c ≠ none)
      let (fracDigits, afterFrac) :=
        match afterInt with
        | '.' :: r => (r.takeWhile (fun c => digitVal? c ≠ none),
                       r.dropWhile (fun c => digitVal? c ≠ none))
        | _ => ([], afterInt)
      if intDigits.isEmpty ∧ fracDigits.isEmpty then Option.none
      else
        let coeff : Int := (parseDigitsAux 0 (intDigits ++ fracDigits)).getD 0
        let coeff : Int := if neg then -coeff else coeff
        let fexp : Int := -(fracDigits.length : Int)
        match afterFrac with
        | [] => some (.fin coeff fexp)
        | e :: r =>
          if e = 'e' ∨ e = 'E' then
            let (eneg, eds) :=
              match r with
              | '-' :: r2 => (true, r2)
              | '+' :: r2 => (false, r2)
              | _ => (false, r)
            match parseDigits eds with
            | Option.none => Option.none
            | some ev =>
              let ev : Int := if eneg then -(ev : Int) else (ev : Int)
              some (.fin coeff (fexp + ev))
          else Option.none

/-- Exact `Decimal` subtraction on the claim-relevant inputs (NaN and
infinities propagate; finite operands are aligned and subtracted). -/
def pyDecSub : PyDec → PyDec → PyDec
  | .nan, _ => .nan
  | _, .nan => .nan
  | .inf n, .fin _ _ => .inf n
  | .fin _ _, .inf n => .inf (!n)
  | .inf n, .inf m => if n = m then .nan else .inf n
  | .fin c1 e1, .fin c2 e2 =>
    let e := min e1 e2
    .fin (c1 * 10 ^ (e1 - e).toNat - c2 * 10 ^ (e2 - e).toNat) e

/-- Round a scaled value half-up (ties away from zero, as
`decimal.ROUND_HALF_UP`): the result is `round(c / d)` for a positive
even divisor `d`. -/
def roundHalfUpDiv (c : Int) (d : Nat) : Int :=
  let q := (c.natAbs + d / 2) / d
  if c < 0 then -(q : Int) else (q : Int)

/-- The coefficient of a finite `Decimal` re-scaled to exponent `-5`
with half-up rounding. -/
def quantCoeff (c e : Int) : Int :=
  if 0 ≤ e + 5 then c * 10 ^ (e + 5).toNat
  else roundHalfUpDiv c (10 ^ (-(e + 5)).toNat)

/-- `dec.quantize(Decimal("1.00000"), rounding=ROUND_HALF_UP)` under the
default context: quiet NaN propagates, an infinity signals
`InvalidOperation`, and a result whose coefficient needs more than 28
digits signals `InvalidOperation`. -/
def pyDecQuantize5 : PyDec → Except PyErr PyDec
  | .nan => .ok .nan
  | .inf _ => .error .invalidOperation
  | .fin c e =>
    if 28 < decDigits (quantCoeff c e).natAbs then .error .invalidOperation
    else .ok (.fin (quantCoeff c e) (-5))

/-- `abs(dec) >= Decimal("10000000000")` — an *ordered* comparison, which
the `decimal` module implements by signalling `InvalidOperation` when the
operand is a NaN. -/
def pyDecAbsGe1e10 : PyDec → Except PyErr Bool
  | .nan => .error .invalidOperation
  | .inf _ => .ok true
  | .fin c e => .ok (scaledAbsGe c e (10 ^ 10))

/-- The string-coercion step of `safe_decimal`: bools, ints and floats
are passed through `str`, strings are kept, every other type stops the
function (which then returns `None`). -/
def pyStrOfVal? : PyVal → Option String
  | .bool b => some (pyStrOfBool b)
  | .int n => some (pyStrOfInt n)
  | .float f => some (pyStrOfFloat f)
  | .str s => some s
  | _ => Option.none

/-- The parse step of `safe_decimal`: a leading `<` means "parse the
rest and subtract `Decimal("0.0001")`", otherwise parse directly; any
parse failure yields `None` (the source catches every exception here). -/
def parseDecInput (value_str : String) : Option PyDec :=
  if value_str.toList.head? = some '<' then
    match pyDecParse (pyStrip (String.mk (value_str.toList.drop 1))) with
    | some d => some (pyDecSub d (.fin 1 (-4)))
    | Option.none => Option.none
  else pyDecParse value_str

/-- The tail of `safe_decimal`: quantize inside
`try/except InvalidOperation` (returning `None` on that error), then the
magnitude guard `abs(dec) >= Decimal("10000000000")` — which runs
*outside* any `try`, so its exceptions propagate. -/
def decFinish (dec : PyDec) : Except PyErr (Option PyDec) :=
  match pyDecQuantize5 dec with
  | .error .invalidOperation => .ok Option.none
  | .error e => .error e
  | .ok dec2 =>
    match pyDecAbsGe1e10 dec2 with
    | .error e => .error e
    | .ok true => .ok Option.none
    | .ok false => .ok (some dec2)

/-- `safe_decimal` from `type_converters.py`: `None` maps to `None`;
ints/floats/bools are stringified; non-strings map to `None`; the
stripped string (empty mapping to `None`) is parsed and the result
quantized and range-guarded by `decFinish`. -/
def safe_decimal (v : PyVal) : Except PyErr (Option PyDec) :=
  match v with
  | .none => .ok Option.none
  | v =>
    match pyStrOfVal? v with
    | Option.none => .ok Option.none
    | some s =>
      if pyStrip s = "" then .ok Option.none
      else
        match parseDecInput (pyStrip s) with
        | Option.none => .ok Option.none
        | some dec => decFinish dec

/-! ## The parsed document tree

`BeautifulSoup(..., "html.parser")` yields a tree of `NavigableString`
and `Tag` nodes; the root object carries the name `[document]`.  The tree
is embedded as a mutual inductive (so that the tree-walking functions are
structurally recursive and kernel-reducible). -/

mutual
inductive Node where
  | text (s : String) : Node
  | elem (tag : String) (attrs : List (String × String)) (children : NodeList) : Node
inductive NodeList where
  | nil : NodeList
  | cons (head : Node) (tail : NodeList) : NodeList
end

mutual
/-- `get_text()`: concatenation of every descendant text node. -/
def Node.getText : Node → String
  | .text s => s
  | .elem _ _ cs => cs.getTexts

/-- `get_text()` over a list of siblings. -/
def NodeList.getTexts : NodeList → String
  | .nil => ""
  | .cons n ns => n.getText ++ ns.getTexts
end

mutual
/-- The text contents of every descendant `NavigableString`, in document
order (the `descendants` iterator restricted to strings). -/
def Node.textNodes : Node → List String
  | .text s => [s]
  | .elem _ _ cs => cs.textNodesL

/-- `textNodes` over a list of siblings. -/
def NodeList.textNodesL : NodeList → List String
  | .nil => []
  | .cons n ns => n.textNodes ++ ns.textNodesL
end

mutual
/-- `find_all(p)`: every descendant element whose tag satisfies `p`, in
document order.  Called on an element it searches the descendants only,
and nested matches are also returned, as in BeautifulSoup. -/
def Node.findAll (p : String → Bool) : Node → List Node
  | .text _ => []
  | .elem _ _ cs => cs.findAllL p

/-- `find_all` over a list of siblings (each sibling that matches is
returned before its own matching descendants). -/
def NodeList.findAllL (p : String → Bool) : NodeList → List Node
  | .nil => []
  | .cons (.text _) ns => ns.findAllL p
  | .cons (.elem t a cs) ns =>
    (if p t then [Node.elem t a cs] else []) ++ cs.findAllL p ++ ns.findAllL p
end

/-- `find_all(tag)` for a single tag name. -/
def Node.findTag (tag : String) (n : Node) : List Node :=
  n.findAll (· = tag)

/-- Direct children (`recursive=False`) whose tag satisfies `p`. -/
def NodeList.directElems (p : String → Bool) : NodeList → List Node
  | .nil => []
  | .cons (.text _) ns => ns.directElems p
  | .cons (.elem t a cs) ns =>
    (if p t then [Node.elem t a cs] else []) ++ ns.directElems p

/-- `tag.get(name)`: attribute lookup (the tree builder keeps the last
occurrence of a duplicated attribute, so lookup of the stored list — which
retains the last write — is a plain first lookup after de-duplication;
our parser stores de-duplicated attributes). -/
def attrGet (attrs : List (String × String)) (name : String) : Option String :=
  match attrs.find? (fun kv => kv.1 = name) with
  | some kv => some kv.2
  | _ => Option.none

/-- The attributes of an element node (`[]` for text nodes). -/
def Node.attrs : Node → List (String × String)
  | .text _ => []
  | .elem _ a _ => a

/-- `int(cell.get("colspan", 1))`: a missing attribute defaults to the
integer `1`, anything else goes through Python `int(string)` — which
raises `ValueError` on malformed values. -/
def spanOf (cell : Node) : Except PyErr Int :=
  match attrGet cell.attrs "colspan" with
  | Option.none => .ok 1
  | some s => pyIntParse s

mutual
/-- Generic infallible rewrite pass: every element whose tag satisfies
`p` is replaced, top-down, by the text `g` renders for it (when `g`
returns `none` the element is kept and the pass descends into its
children).  This models BeautifulSoup's `for el in soup.find_all(...):
el.replace_with(text)` loops: the eager `find_all` list is processed in
document order, so once an outer match is replaced its inner matches are
detached and their mutation is invisible to the final tree. -/
def rewriteP (p : String → Bool) (g : Node → Option String) : Node → Node
  | .text s => .text s
  | .elem t a cs =>
    if p t then
      match g (.elem t a cs) with
      | some s => .text s
      | Option.none => .elem t a (NodeList.rewritePL p g cs)
    else .elem t a (NodeList.rewritePL p g cs)

/-- `rewriteP` over a list of siblings. -/
def NodeList.rewritePL (p : String → Bool) (g : Node → Option String) : NodeList → NodeList
  | .nil => .nil
  | .cons n ns => .cons (rewriteP p g n) (NodeList.rewritePL p g ns)
end

mutual
/-- Generic fallible rewrite pass (same replacement discipline as
`rewriteP`, used by the table pass whose renderer can raise). -/
def rewriteE (p : String → Bool) (g : Node → Except PyErr String) : Node → Except PyErr Node
  | .text s => .ok (.text s)
  | .elem t a cs =>
    if p t then
      match g (.elem t a cs) with
      | .ok s => .ok (.text s)
      | .error e => .error e
    else
      match NodeList.rewriteEL p g cs with
      | .ok cs2 => .ok (.elem t a cs2)
      | .error e => .error e

/-- `rewriteE` over a list of siblings. -/
def NodeList.rewriteEL (p : String → Bool) (g : Node → Except PyErr String) :
    NodeList → Except PyErr NodeList
  | .nil => .ok .nil
  | .cons n ns =>
    match rewriteE p g n with
    | .error e => .error e
    | .ok n2 =>
      match NodeList.rewriteEL p g ns with
      | .error e => .error e
      | .ok ns2 => .ok (.cons n2 ns2)
end

/-! ## Embedding of `html/markdown_converter.py` -/

/-- `ConversionConfig` with its defaults. -/
structure ConversionConfig where
  preserve_structure : Bool := true
  preserve_tables : Bool := true
  preserve_links : Bool := true
  heading_style : String := "atx"
  link_style : String := "inline"
  bullet_marker : String := "-"
  code_block_style : String := "fenced"
  fence_char : String := String.mk [Char.ofNat 96]
  emphasis_marker : String := "*"
deriving Repr

/-- The default configuration. -/
def defaultConfig : ConversionConfig := {}

/-- Repeat a string (Python `s * n`). -/
def strRepeat (s : String) (n : Nat) : String :=
  String.join (List.replicate n s)

/-- `_process_headings`: `h6` down to `h1`, each replaced by its rendered
heading line. -/
def renderHeading (cfg : ConversionConfig) (i : Nat) (h : Node) : String :=
  if cfg.heading_style = "atx" then
    "\n" ++ String.mk (List.replicate i '#') ++ " " ++ pyStrip h.getText ++ "\n"
  else
    let text := pyStrip h.getText
    let underline := if i = 1 then "=" else "-"
    "\n" ++ text ++ "\n" ++ strRepeat underline text.length ++ "\n"

/-- One heading level pass. -/
def headingPass (cfg : ConversionConfig) (i : Nat) (tag : String) (n : Node) : Node :=
  rewriteP (· = tag) (fun h => some (renderHeading cfg i h)) n

/-- All six heading passes, most specific level first. -/
def processHeadings (cfg : ConversionConfig) (n : Node) : Node :=
  headingPass cfg 1 "h1" (headingPass cfg 2 "h2" (headingPass cfg 3 "h3"
    (headingPass cfg 4 "h4" (headingPass cfg 5 "h5" (headingPass cfg 6 "h6" n)))))

/-- `"<index>. <text>"` items of an ordered list (direct `li` children,
numbered from 1). -/
def olItems (ol : Node) : List String :=
  match ol with
  | .text _ => []
  | .elem _ _ cs =>
    (cs.directElems (· = "li")).enum.map fun it =>
      String.mk (natRepr (it.1 + 1)) ++ ". " ++ pyStrip it.2.getText

/-- `"<bullet> <text>"` items of an unordered list. -/
def ulItems (cfg : ConversionConfig) (ul : Node) : List String :=
  match ul with
  | .text _ => []
  | .elem _ _ cs =>
    (cs.directElems (· = "li")).map fun li =>
      cfg.bullet_marker ++ " " ++ pyStrip li.getText

/-- The ordered-list pass of `_process_lists`. -/
def olPass (n : Node) : Node :=
  rewriteP (· = "ol")
    (fun ol => some ("\n" ++ String.intercalate "\n" (olItems ol) ++ "\n\n")) n

/-- The unordered-list pass of `_process_lists`. -/
def ulPass (cfg : ConversionConfig) (n : Node) : Node :=
  rewriteP (· = "ul")
    (fun ul => some ("\n" ++ String.intercalate "\n" (ulItems cfg ul) ++ "\n\n")) n

/-- `_process_lists`: ordered lists first, then unordered lists; each is
replaced by its joined items with a leading newline and a trailing blank
line. -/
def processLists (cfg : ConversionConfig) (n : Node) : Node :=
  ulPass cfg (olPass n)

/-- The bold rewrite (`strong`/`b`). -/
def strongPass (cfg : ConversionConfig) (n : Node) : Node :=
  rewriteP (fun t => t = "strong" ∨ t = "b")
    (fun el => some (strRepeat cfg.emphasis_marker 2 ++ pyStrip el.getText ++
      strRepeat cfg.emphasis_marker 2)) n

/-- The italic rewrite (`em`/`i`). -/
def emPass (cfg : ConversionConfig) (n : Node) : Node :=
  rewriteP (fun t => t = "em" ∨ t = "i")
    (fun el => some (cfg.emphasis_marker ++ pyStrip el.getText ++
      cfg.emphasis_marker)) n

/-- The strikethrough rewrite (`s`/`del`). -/
def strikePass (n : Node) : Node :=
  rewriteP (fun t => t = "s" ∨ t = "del")
    (fun el => some ("~~" ++ pyStrip el.getText ++ "~~")) n

/-- The inline-code rewrite. -/
def codePass (n : Node) : Node :=
  rewriteP (· = "code")
    (fun el => some (String.mk [Char.ofNat 96] ++ pyStrip el.getText ++
      String.mk [Char.ofNat 96])) n

/-- The link rewrite: inline style renders `[text](href)`; the
unimplemented `reference` style leaves the anchor untouched. -/
def linkPass (cfg : ConversionConfig) (n : Node) : Node :=
  if cfg.preserve_links then
    rewriteP (· = "a")
      (fun el =>
        if cfg.link_style = "inline" then
          some ("[" ++ pyStrip el.getText ++ "](" ++
            ((attrGet el.attrs "href").getD "") ++ ")")
        else Option.none) n
  else n

/-- Shared inline-formatting rewrites (`strong`/`b`, `em`/`i`, `s`/`del`,
`code`, `a`): used both inside `_process_tables` (scoped to the table)
and as `_process_basic_formatting` (scoped to the whole tree); the two
source methods perform the same rewrites. -/
def applyInlineFormatting (cfg : ConversionConfig) (n : Node) : Node :=
  linkPass cfg (codePass (strikePass (emPass cfg (strongPass cfg n))))

/-- Span expansion shared by the three cell loops of `_process_tables`:
`if colspan > 1: [text] + [""] * (colspan - 1) else [text]`, with the
span read from the `colspan` attribute through Python `int`. -/
def expandCells (cells : List Node) : Except PyErr (List String) :=
  match cells with
  | [] => .ok []
  | cell :: rest =>
    match spanOf cell with
    | .error e => .error e
    | .ok colspan =>
      let text := pyStrip cell.getText
      let expanded :=
        if colspan > 1 then text :: List.replicate (colspan - 1).toNat ""
        else [text]
      match expandCells rest with
      | .error e => .error e
      | .ok out => .ok (expanded ++ out)

/-- Step 1 of `_process_tables`: find the first row containing `<th>`
cells and expand them into the header list. -/
def scanThHeader : Nat → List Node → Except PyErr (Option (Nat × List String))
  | _, [] => .ok Option.none
  | i, tr :: rest =>
    let ths := tr.findTag "th"
    if ths.isEmpty then scanThHeader (i + 1) rest
    else
      match expandCells ths with
      | .error e => .error e
      | .ok hs => .ok (some (i, hs))

/-- Sum of the `colspan` values of a list of cells (each read through
Python `int`). -/
def sumSpans (cells : List Node) : Except PyErr Int :=
  match cells with
  | [] => .ok 0
  | cell :: rest =>
    match spanOf cell with
    | .error e => .error e
    | .ok v =>
      match sumSpans rest with
      | .error e => .error e
      | .ok rest2 => .ok (v + rest2)

/-- Step 2 of `_process_tables`: when no `<th>` exists, the first row
with more than one `<td>` whose summed spans equal its cell count is
taken as a synthetic header. -/
def scanTdHeader : Nat → List Node → Except PyErr (Option (Nat × List String))
  | _, [] => .ok Option.none
  | i, tr :: rest =>
    let tds := tr.findTag "td"
    if tds.length > 1 then
      match sumSpans tds with
      | .error e => .error e
      | .ok total =>
        if total = (tds.length : Int) then
          match expandCells tds with
          | .error e => .error e
          | .ok hs => .ok (some (i, hs))
        else scanTdHeader (i + 1) rest
    else scanTdHeader (i + 1) rest

/-- A pipe-delimited Markdown table row. -/
def pipeRow (cells : List String) : String :=
  "| " ++ String.intercalate " | " cells ++ " |"

/-- Step 4 of `_process_tables`: emit one pipe row for each remaining row
— skipping the row at the header index and every row that contains any
`<th>` — from its expanded `<td>` cells. -/
def dataLinesAux (hIdx : Option Nat) : Nat → List Node → Except PyErr (List String)
  | _, [] => .ok []
  | i, tr :: rest =>
    if hIdx = some i then dataLinesAux hIdx (i + 1) rest
    else if !(tr.findTag "th").isEmpty then dataLinesAux hIdx (i + 1) rest
    else
      let tds := tr.findTag "td"
      if tds.isEmpty then dataLinesAux hIdx (i + 1) rest
      else
        match expandCells tds with
        | .error e => .error e
        | .ok cells =>
          match dataLinesAux hIdx (i + 1) rest with
          | .error e => .error e
          | .ok out => .ok (pipeRow cells :: out)

/-- `_process_tables` on one table element: inline formatting scoped to
the table, header detection (steps 1–2), header emission (step 3) and
data rows (step 4), joined with newlines and padded by one newline on
each side. -/
def processTable (cfg : ConversionConfig) (tbl : Node) : Except PyErr String :=
  let t := applyInlineFormatting cfg tbl
  let all_rows := t.findTag "tr"
  match scanThHeader 0 all_rows with
  | .error e => .error e
  | .ok th =>
    match (match th with
           | some h => Except.ok (some h)
           | Option.none => scanTdHeader 0 all_rows) with
    | .error e => .error e
    | .ok hdr =>
      let headerLines :=
        match hdr with
        | some (_, hs) =>
          if hs.isEmpty then []
          else [pipeRow hs, pipeRow (List.replicate hs.length "---")]
        | Option.none => []
      match dataLinesAux (hdr.map Prod.fst) 0 all_rows with
      | .error e => .error e
      | .ok dls =>
        .ok ("\n" ++ String.intercalate "\n" (headerLines ++ dls) ++ "\n")

/-- The `_process_tables` pass over the whole tree (subject to the note
on `rewriteE`: the source's re-processing of already-detached nested
tables has no effect on the output tree and is not modelled). -/
def processTables (cfg : ConversionConfig) (n : Node) : Except PyErr Node :=
  rewriteE (· = "table") (processTable cfg) n

/-- `_process_code_blocks`. -/
def processCodeBlocks (cfg : ConversionConfig) (n : Node) : Node :=
  rewriteP (· = "pre")
    (fun pre =>
      let code := pyStrip pre.getText
      if cfg.code_block_style = "fenced" then
        let fence := strRepeat cfg.fence_char 3
        some ("\n" ++ fence ++ "\n" ++ code ++ "\n" ++ fence ++ "\n")
      else
        let indented := String.intercalate "\n"
          ((code.splitOn "\n").map (fun line => "    " ++ line))
        some ("\n" ++ indented ++ "\n")) n

/-- `_process_blockquotes`. -/
def processBlockquotes (n : Node) : Node :=
  rewriteP (· = "blockquote")
    (fun bq =>
      let quoted := String.intercalate "\n"
        (((pyStrip bq.getText).splitOn "\n").map (fun line => "> " ++ line))
      some ("\n" ++ quoted ++ "\n")) n

/-- `_process_horizontal_rules`. -/
def processHorizontalRules (n : Node) : Node :=
  rewriteP (· = "hr") (fun _ => some "\n---\n") n

/-- `_process_paragraphs_final`: the stripped nonempty descendant text
fragments joined by single spaces; a paragraph with no such content is
left in place. -/
def processParagraphs (n : Node) : Node :=
  rewriteP (· = "p")
    (fun p =>
      let parts := (p.textNodes.map pyStrip).filter (· ≠ "")
      if parts.isEmpty then Option.none
      else some ("\n" ++ String.intercalate " " parts ++ "\n\n")) n

/-- `_process_structure`: headings, lists, tables (when preserved), code
blocks, blockquotes, horizontal rules — in source order. -/
def processStructure (cfg : ConversionConfig) (n : Node) : Except PyErr Node :=
  match (if cfg.preserve_tables then processTables cfg (processLists cfg (processHeadings cfg n))
         else .ok (processLists cfg (processHeadings cfg n))) with
  | .error e => .error e
  | .ok n2 =>
    .ok (processHorizontalRules (processBlockquotes (processCodeBlocks cfg n2)))

/-- `select_one`: the CSS matcher is an external collaborator
(soupsieve); modelled for the tag-name selectors this repository could
pass (no claim exercises a selector at all). -/
def selectOne (n : Node) (sel : String) : Option Node :=
  (n.findTag sel).head?

/-- The conversion pipeline after container selection: structure passes
(when `preserve_structure`), basic formatting, paragraph assembly, text
flattening and cleanup.  Exceptions propagate (the source logs and
re-raises). -/
def convertSoupCore (cfg : ConversionConfig) (soup : Node) : Except PyErr String :=
  match (if cfg.preserve_structure then processStructure cfg soup else .ok soup) with
  | .error e => .error e
  | .ok n =>
    .ok (clean_and_format (processParagraphs (applyInlineFormatting cfg n)).getText)

/-- `convert_html_soup`: optional container selection (an unmatched
selector falls back to the whole tree) followed by the pipeline. -/
def convert_html_soup (cfg : ConversionConfig) (soup : Node)
    (container_selector : Option String) : Except PyErr String :=
  convertSoupCore cfg
    (match container_selector with
     | some sel => (selectOne soup sel).getD soup
     | Option.none => soup)

/-! ## The `html.parser` tree builder

`BeautifulSoup(markup, "html.parser")` is modelled by a single-pass
stack-based builder: start tags push, matching end tags pop (closing any
unclosed inner elements), unmatched end tags are ignored, void elements
and self-closed tags attach immediately, character references in text and
attribute values are decoded (`convert_charrefs=True`), tag and
attribute names are lowercased, and a duplicated attribute keeps its last
value (the tree builder's `replace` policy).  Comments/doctypes are
skipped up to the next `>`. -/

/-- An element still open during parsing. -/
structure OpenElem where
  tag : String
  attrs : List (String × String)
  children : List Node

/-- Convert a list of siblings into the mutual-inductive spine. -/
def NodeList.ofList : List Node → NodeList
  | [] => .nil
  | n :: ns => .cons n (NodeList.ofList ns)

/-- Close an open element into a `Node`. -/
def OpenElem.toNode (o : OpenElem) : Node :=
  .elem o.tag o.attrs (NodeList.ofList o.children)

/-- Append a finished child node. -/
def OpenElem.push (o : OpenElem) (n : Node) : OpenElem :=
  { o with children := o.children ++ [n] }

/-- ASCII letter. -/
def isAsciiLetter (c : Char) : Bool :=
  ('a' ≤ c ∧ c ≤ 'z') ∨ ('A' ≤ c ∧ c ≤ 'Z')

/-- Characters of a tag name. -/
def isTagChar (c : Char) : Bool :=
  isAsciiLetter c || (digitVal? c ≠ none)

/-- Characters of an attribute name. -/
def isAttrNameChar (c : Char) : Bool :=
  !(isPySpace c) && c ≠ '=' && c ≠ '>' && c ≠ '/'

/-- HTML void elements (no end tag expected). -/
def isVoidTag (t : String) : Bool :=
  t = "area" || t = "base" || t = "br" || t = "col" || t = "embed" ||
  t = "hr" || t = "img" || t = "input" || t = "link" || t = "meta" ||
  t = "param" || t = "source" || t = "track" || t = "wbr"

/-- Store an attribute, replacing an earlier occurrence of the same name. -/
def addAttr (attrs : List (String × String)) (k v : String) :
    List (String × String) :=
  if attrs.any (fun kv => kv.1 = k) then
    attrs.map (fun kv => if kv.1 = k then (k, v) else kv)
  else attrs ++ [(k, v)]

/-- Is an element with this tag currently open? -/
def hasOpen (name : String) (cur : OpenElem) (stack : List OpenElem) : Bool :=
  cur.tag = name || stack.any (fun o => o.tag = name)

/-- Close open elements (attaching each to its parent) up to and
including the one named `name`. -/
def closeUntil (name : String) : OpenElem → List OpenElem →
    OpenElem × List OpenElem
  | cur, [] => (cur, [])
  | cur, p :: rest =>
    let merged := p.push cur.toNode
    if cur.tag = name then (merged, rest)
    else closeUntil name merged rest

/-- Close every remaining open element at end of input. -/
def finalizeAll : OpenElem → List OpenElem → Node
  | cur, [] => cur.toNode
  | cur, p :: rest => finalizeAll (p.push cur.toNode) rest

/-- Attribute scanner of a start tag: returns the attribute list, the
self-closing flag and the input after the closing `>`.  Fuel-based; the
initial fuel `length + 1` always suffices. -/
def parseAttrs : Nat → List Char → List (String × String) →
    (List (String × String) × Bool × List Char)
  | 0, cs, acc => (acc, false, cs)
  | f + 1, cs, acc =>
    match cs.dropWhile isPySpace with
    | [] => (acc, false, [])
    | '>' :: rest => (acc, false, rest)
    | '/' :: rest =>
      (match rest.dropWhile isPySpace with
       | '>' :: rest2 => (acc, true, rest2)
       | _ => parseAttrs f rest acc)
    | c :: cs2 =>
      let name := String.mk (((c :: cs2).takeWhile isAttrNameChar).map Char.toLower)
      let afterName := (c :: cs2).dropWhile isAttrNameChar
      if name = "" then parseAttrs f cs2 acc
      else
        match afterName.dropWhile isPySpace with
        | '=' :: vrest0 =>
          (match vrest0.dropWhile isPySpace with
           | '"' :: v2 =>
             let v := v2.takeWhile (· ≠ '"')
             let r := (v2.dropWhile (· ≠ '"')).drop 1
             parseAttrs f r (addAttr acc name (String.mk (htmlUnescapeL v)))
           | q :: v2 =>
             if q = Char.ofNat 39 then
               let v := v2.takeWhile (· ≠ Char.ofNat 39)
               let r := (v2.dropWhile (· ≠ Char.ofNat 39)).drop 1
               parseAttrs f r (addAttr acc name (String.mk (htmlUnescapeL v)))
             else
               let stop := fun c => isPySpace c || c = '>'
               let v := (q :: v2).takeWhile (fun c => !(stop c))
               let r := (q :: v2).dropWhile (fun c => !(stop c))
               parseAttrs f r (addAttr acc name (String.mk (htmlUnescapeL v)))
           | [] => (addAttr acc name "", false, []))
        | rest => parseAttrs f rest (addAttr acc name "")

/-- The main builder loop.  Fuel-based (every step consumes at least one
character); exhausted fuel closes the document, and the initial fuel
`length + 1` always suffices. -/
def parseGo : Nat → List Char → OpenElem → List OpenElem → Node
  | 0, _, cur, stack => finalizeAll cur stack
  | _ + 1, [], cur, stack => finalizeAll cur stack
  | f + 1, c :: cs, cur, stack =>
    if c = '<' then
      match cs with
      | '/' :: cs2 =>
        let name := String.mk ((cs2.takeWhile isTagChar).map Char.toLower)
        let rest := (cs2.dropWhile (· ≠ '>')).drop 1
        if hasOpen name cur stack then
          let closed := closeUntil name cur stack
          parseGo f rest closed.1 closed.2
        else parseGo f rest cur stack
      | '!' :: cs2 =>
        parseGo f ((cs2.dropWhile (· ≠ '>')).drop 1) cur stack
      | c2 :: cs2 =>
        if isAsciiLetter c2 then
          let name := String.mk (((c2 :: cs2).takeWhile isTagChar).map Char.toLower)
          let afterName := (c2 :: cs2).dropWhile isTagChar
          let parsed := parseAttrs (afterName.length + 1) afterName []
          if parsed.2.1 || isVoidTag name then
            parseGo f parsed.2.2 (cur.push (.elem name parsed.1 .nil)) stack
          else
            parseGo f parsed.2.2 (OpenElem.mk name parsed.1 []) (cur :: stack)
        else
          parseGo f cs (cur.push (.text "<")) stack
      | [] => finalizeAll (cur.push (.text "<")) stack
    else
      let txt := (c :: cs).takeWhile (· ≠ '<')
      let rest := (c :: cs).dropWhile (· ≠ '<')
      parseGo f rest (cur.push (.text (String.mk (htmlUnescapeL txt)))) stack

/-- `BeautifulSoup(s, "html.parser")`. -/
def parseHtml (s : String) : Node :=
  parseGo (s.length + 1) s.toList (OpenElem.mk "[document]" [] []) []

/-- `convert_html_str`: parse, then convert the tree. -/
def convert_html_str (cfg : ConversionConfig) (s : String)
    (container_selector : Option String) : Except PyErr String :=
  convert_html_soup cfg (parseHtml s) container_selector

/-- The runtime type of the `content` argument of `convert_html`: a raw
markup string, a parsed tree (`BeautifulSoup`/`Tag`), or any other
Python value. -/
inductive HtmlInput where
  | str (s : String)
  | soup (n : Node)
  | other (v : PyVal)

/-- Errors of the converter front door: the `ValueError("Content must be
either a string or BeautifulSoup/Tag object")` raised for wrongly-typed
input, or an exception propagated from the conversion itself. -/
inductive ConvErr where
  | invalidInput
  | pyErr (e : PyErr)
deriving DecidableEq, Repr

/-- `convert_html`: dispatch on the runtime type of `content`; the
`try/except` in the source logs and re-raises, leaving errors unchanged. -/
def convert_html (cfg : ConversionConfig) : HtmlInput → Option String →
    Except ConvErr String
  | .str s, sel =>
    match convert_html_str cfg s sel with
    | .ok r => .ok r
    | .error e => .error (.pyErr e)
  | .soup n, sel =>
    match convert_html_soup cfg n sel with
    | .ok r => .ok r
    | .error e => .error (.pyErr e)
  | .other _, _ => .error .invalidInput

/-- The module-level convenience function `convert_html_to_markdown`. -/
def convert_html_to_markdown (html_content : String)
    (container_selector : Option String := Option.none)
    (config : Option ConversionConfig := Option.none) : Except ConvErr String :=
  convert_html (config.getD defaultConfig) (.str html_content) container_selector

/-! ## Embedding of `html/table_renderer.py` -/

/-- `" ".join(cell.stripped_strings)`: every descendant string stripped,
empties skipped, joined by single spaces. -/
def strippedStringsText (cell : Node) : String :=
  String.intercalate " " ((cell.textNodes.map pyStrip).filter (· ≠ ""))

/-- Greedy word wrap — a model of the external `textwrap.wrap` utility
(only reached for cell texts longer than 200 characters, which no claim
exercises). -/
def wrapAux (width : Nat) : List String → String → List String
  | [], cur => if cur = "" then [] else [cur]
  | w :: ws, cur =>
    if cur = "" then wrapAux width ws w
    else if cur.length + 1 + w.length ≤ width then
      wrapAux width ws (cur ++ " " ++ w)
    else cur :: wrapAux width ws w

/-- `textwrap.wrap(text, width)` (model). -/
def textwrapWrap (width : Nat) (s : String) : List String :=
  wrapAux width ((s.splitOn " ").filter (· ≠ "")) ""

/-- One rendered cell text of the table renderer. -/
def renderCellText (cell : Node) : String :=
  let text := strippedStringsText cell
  if text.length > 200 then String.intercalate "\n" (textwrapWrap 200 text)
  else text

/-- The Rich table construction and console rendering: the terminal
rendering library is an external collaborator (spec §1/§4.4); the cell
extraction, 200-character wrapping and empty-cell padding follow the
source, and the final boxed console output is modelled as a plain
pipe-joined grid. -/
def renderRichTable (trs : List Node) : String :=
  let cellsOf := fun (tr : Node) => tr.findAll (fun t => t = "td" ∨ t = "th")
  let maxCols := (trs.map (fun tr => (cellsOf tr).length)).foldl max 0
  let rows := trs.map fun tr =>
    let cells := (cellsOf tr).map renderCellText
    cells ++ List.replicate (maxCols - cells.length) ""
  String.intercalate "\n" (rows.map pipeRow) ++ "\n"

/-- `convert_html_to_table`: `None`/empty input returns the empty string;
markup with zero `<tr>` elements returns the empty string; otherwise the
rendered table.  No operation on these paths can raise, which the total
function type records. -/
def convert_html_to_table (html_string : Option String) : String :=
  match html_string with
  | Option.none => ""
  | some s =>
    if s = "" then ""
    else
      let soup := parseHtml s
      let trs := soup.findTag "tr"
      if trs.length = 0 then ""
      else renderRichTable trs

/-! ## Helper definitions for the claim theorems -/

/-- Substring test (used to state that a cell text does or does not
appear in a conversion result). -/
def hasSubstrL (pat : List Char) : List Char → Bool
  | [] => pat.isEmpty
  | c :: rest => pat.isPrefixOf (c :: rest) || hasSubstrL pat rest

/-- Substring test on strings. -/
def strContains (s pat : String) : Bool :=
  hasSubstrL pat.toList s.toList

/-- A table cell with the given tag, text content and `colspan`
attribute holding the decimal representation of `span`. -/
def cellNode (tag text : String) (span : Nat) : Node :=
  .elem tag [("colspan", String.mk (natRepr span))] (.cons (.text text) .nil)

/-- A table row of `<td>` cells built from `(text, span)` pairs. -/
def tdRow (cells : List (String × Nat)) : Node :=
  .elem "tr" [] (NodeList.ofList (cells.map fun c => cellNode "td" c.1 c.2))

/-- The expansion the specification describes for a cell of span `n`:
its text followed by `n - 1` empty-string placeholders. -/
def specExpand (cells : List (String × Nat)) : List String :=
  cells.flatMap fun c => c.1 :: List.replicate (c.2 - 1) ""

/-- Adjacent `"\n\n"` pair somewhere in the list. -/
def hasNlNl : List Char → Bool
  | c1 :: c2 :: rest => (c1 = '\n' && c2 = '\n') || hasNlNl (c2 :: rest)
  | _ => false

/-- A whitespace run is in collapsed form: at most one newline, or
exactly two adjacent newlines (one blank line). -/
def okRun (r : List Char) : Prop :=
  nlCount r ≤ 1 ∨ (nlCount r = 2 ∧ hasNlNl r = true)

/-- No two adjacent spaces. -/
def noTwoSpaces : List Char → Bool
  | c1 :: c2 :: rest => !(c1 = ' ' && c2 = ' ') && noTwoSpaces (c2 :: rest)
  | _ => true

/-- A list of sibling text nodes. -/
def textNL : List String → NodeList
  | [] => .nil
  | s :: ss => .cons (.text s) (textNL ss)

/-- A parsed document whose children are plain text nodes. -/
def docNode (ss : List String) : Node :=
  .elem "[document]" [] (textNL ss)

/-- Text whose whitespace is already in cleanup normal form: whitespace
only as single interior spaces. -/
def niceTextB (s : String) : Bool :=
  (s.toList.all fun c => !(isPySpace c) || c = ' ') &&
  noTwoSpaces s.toList &&
  (match s.toList.head? with | some c => !(c = ' ') | _ => true) &&
  (match s.toList.getLast? with | some c => !(c = ' ') | _ => true)

/-! ## Supporting lemmas

The decimal printer round-trips through the Python `int`/`Decimal`
parsers, entity decoding is the identity on ampersand-free text, and the
shared span expansion of `_process_tables` matches the specification's
description on constructed cells. -/

theorem natReprAux_fuel (f n : Nat) (h : n < f) :
    natReprAux f n = natReprAux (n + 1) n := by
  induction f using Nat.strong_induction_on generalizing n with
  | _ f ih =>
    match f with
    | 0 => omega
    | f + 1 =>
      by_cases h10 : n < 10
      · simp [natReprAux, h10]
      · have hdiv : n / 10 < n := Nat.div_lt_self (by omega) (by omega)
        have h1 : natReprAux f (n / 10) = natReprAux (n / 10 + 1) (n / 10) := by
          apply ih f (Nat.lt_succ_self f)
          omega
        have h2 : natReprAux n (n / 10) = natReprAux (n / 10 + 1) (n / 10) := by
          apply ih n (by omega)
          omega
        simp [natReprAux, h10]
        rw [h1, ← h2]

theorem natRepr_unfold (n : Nat) :
    natRepr n = if n < 10 then [Char.ofNat (48 + n)]
      else natRepr (n / 10) ++ [Char.ofNat (48 + n % 10)] := by
  by_cases h10 : n < 10
  · simp [natRepr, natReprAux, h10]
  · have hdiv : n / 10 < n := Nat.div_lt_self (by omega) (by omega)
    have step : natReprAux (n + 1) n
        = natReprAux n (n / 10) ++ [Char.ofNat (48 + n % 10)] := by
      simp [natReprAux, h10]
    unfold natRepr
    rw [step, natReprAux_fuel n (n / 10) hdiv]
    simp [h10]

theorem digitVal?_ofNat (d : Nat) (h : d < 10) :
    digitVal? (Char.ofNat (48 + d)) = some d := by
  interval_cases d <;> decide

theorem parseDigitsAux_append (acc : Nat) (ds : List Char) (c : Char) :
    parseDigitsAux acc (ds ++ [c]) =
      match parseDigitsAux acc ds with
      | some m =>
        match digitVal? c with
        | some d => some (m * 10 + d)
        | none => none
      | none => none := by
  induction ds generalizing acc with
  | nil => simp [parseDigitsAux]
  | cons x xs ih =>
    simp only [List.cons_append, parseDigitsAux]
    match digitVal? x with
    | some d => exact ih (acc * 10 + d)
    | none => rfl

theorem parseDigitsAux_natRepr (n : Nat) : ∀ acc : Nat,
    parseDigitsAux acc (natRepr n) = some (acc * 10 ^ (natRepr n).length + n) := by
  induction n using Nat.strong_induction_on with
  | _ n ih =>
    intro acc
    by_cases h10 : n < 10
    · rw [natRepr_unfold]
      simp [h10, parseDigitsAux, digitVal?_ofNat n h10]
    · have hdiv : n / 10 < n := Nat.div_lt_self (by omega) (by omega)
      rw [natRepr_unfold]
      simp only [h10, if_false]
      rw [parseDigitsAux_append, ih (n / 10) hdiv acc,
        digitVal?_ofNat (n % 10) (Nat.mod_lt n (by omega))]
      simp only [List.length_append, List.length_cons, List.length_nil]
      have hmod : n / 10 * 10 + n % 10 = n := by omega
      congr 1
      calc (acc * 10 ^ (natRepr (n / 10)).length + n / 10) * 10 + n % 10
          = acc * (10 ^ (natRepr (n / 10)).length * 10) +
            (n / 10 * 10 + n % 10) := by ring
        _ = acc * 10 ^ ((natRepr (n / 10)).length + (0 + 1)) + n := by
            rw [hmod]
            ring

theorem natRepr_ne_nil (n : Nat) : natRepr n ≠ [] := by
  rw [natRepr_unfold]
  by_cases h10 : n < 10 <;> simp [h10]

theorem parseDigits_natRepr (n : Nat) : parseDigits (natRepr n) = some n := by
  have h := parseDigitsAux_natRepr n 0
  simp only [Nat.zero_mul, Nat.zero_add] at h
  cases hcs : natRepr n with
  | nil => exact absurd hcs (natRepr_ne_nil n)
  | cons c cs =>
    rw [hcs] at h
    simpa [parseDigits] using h

/-- Every character emitted by `natRepr` is an ASCII digit. -/
theorem natRepr_digits (n : Nat) : ∀ c ∈ natRepr n, digitVal? c ≠ none := by
  induction n using Nat.strong_induction_on with
  | _ n ih =>
    intro c hc
    rw [natRepr_unfold] at hc
    by_cases h10 : n < 10
    · simp [h10] at hc
      subst hc
      rw [digitVal?_ofNat n h10]
      simp
    · simp [h10] at hc
      rcases hc with hc | hc
      · exact ih (n / 10) (Nat.div_lt_self (by omega) (by omega)) c hc
      · subst hc
        rw [digitVal?_ofNat (n % 10) (Nat.mod_lt n (by omega))]
        simp

theorem digit_not_space {c : Char} (h : digitVal? c ≠ none) : isPySpace c = false := by
  unfold digitVal? at h
  by_cases hr : '0' ≤ c ∧ c ≤ '9'
  · have h0 : ('0' : Char) ≤ c := hr.1
    have h9 : c ≤ '9' := hr.2
    simp only [Char.le_def] at h0 h9
    unfold isPySpace
    simp only [Bool.or_eq_false_iff]
    refine ⟨⟨⟨⟨⟨?_, ?_⟩, ?_⟩, ?_⟩, ?_⟩, ?_⟩ <;>
      · simp only [decide_eq_false_iff_not]
        intro hEq
        rw [hEq] at h0 h9
        simp_all
  · simp [hr] at h

theorem dropWhile_all_false {p : Char → Bool} (cs : List Char)
    (h : ∀ c ∈ cs, p c = false) : cs.dropWhile p = cs := by
  match cs with
  | [] => rfl
  | c :: rest =>
    have := h c (by simp)
    simp [List.dropWhile, this]

theorem pyStripL_digits (cs : List Char) (h : ∀ c ∈ cs, digitVal? c ≠ none) :
    pyStripL cs = cs := by
  have hns : ∀ c ∈ cs, isPySpace c = false := fun c hc => digit_not_space (h c hc)
  unfold pyStripL
  rw [dropWhile_all_false cs hns, dropWhile_all_false cs.reverse
    (fun c hc => hns c (List.mem_reverse.mp hc)), List.reverse_reverse]

/-- Python `int(str(n)) = n`: the decimal printer round-trips through
`pyIntParse` for every nonnegative integer. -/
theorem pyIntParse_natRepr (n : Nat) :
    pyIntParse (String.mk (natRepr n)) = .ok (n : Int) := by
  have hstrip : pyStripL (String.mk (natRepr n)).toList = natRepr n :=
    pyStripL_digits (natRepr n) (natRepr_digits n)
  have hne := natRepr_ne_nil n
  have hparse := parseDigits_natRepr n
  unfold pyIntParse
  rw [hstrip]
  cases hcs : natRepr n with
  | nil => exact absurd hcs hne
  | cons c cs =>
    rw [hcs] at hparse
    have hc : digitVal? c ≠ none := by
      have := natRepr_digits n c
      rw [hcs] at this
      exact this (by simp)
    have hcm : c ≠ '-' := by
      intro hEq
      rw [hEq] at hc
      exact hc rfl
    have hcp : c ≠ '+' := by
      intro hEq
      rw [hEq] at hc
      exact hc rfl
    simp [hcm, hcp, hparse]

theorem unescAux_no_amp (f : Nat) (cs : List Char)
    (h : ∀ c ∈ cs, c ≠ '&') : unescAux f cs = cs := by
  induction f generalizing cs with
  | zero => rfl
  | succ f ih =>
    match cs with
    | [] => rfl
    | c :: rest =>
      have hc : c ≠ '&' := h c (by simp)
      simp only [unescAux, hc, if_false]
      rw [ih rest (fun x hx => h x (by simp [hx]))]

theorem htmlUnescapeL_no_amp (cs : List Char) (h : ∀ c ∈ cs, c ≠ '&') :
    htmlUnescapeL cs = cs :=
  unescAux_no_amp _ cs h

theorem spanOf_cellNode (tag text : String) (n : Nat) :
    spanOf (cellNode tag text n) = .ok (n : Int) := by
  simp [cellNode, spanOf, Node.attrs, attrGet, List.find?, pyIntParse_natRepr]

theorem getText_cellNode (tag text : String) (n : Nat) :
    (cellNode tag text n).getText = text := by
  simp [cellNode, Node.getText, NodeList.getTexts]

/-- `expandCells` behaves as the specification's span expansion on a list
of constructed cells whose texts are already stripped and whose spans are
positive. -/
theorem expandCells_spec (tag : String) (cells : List (String × Nat))
    (h : ∀ c ∈ cells, pyStrip c.1 = c.1 ∧ 1 ≤ c.2) :
    expandCells (cells.map fun c => cellNode tag c.1 c.2) = .ok (specExpand cells) := by
  induction cells with
  | nil => simp [expandCells, specExpand]
  | cons c cs ih =>
    have hc := h c (by simp)
    have hcs : ∀ x ∈ cs, pyStrip x.1 = x.1 ∧ 1 ≤ x.2 := fun x hx => h x (by simp [hx])
    simp only [List.map_cons, expandCells, spanOf_cellNode, getText_cellNode, hc.1,
      ih hcs]
    have hexp : (if (c.2 : Int) > 1 then c.1 :: List.replicate ((c.2 : Int) - 1).toNat ""
        else [c.1]) = c.1 :: List.replicate (c.2 - 1) "" := by
      by_cases h1 : (c.2 : Int) > 1
      · have hn : ((c.2 : Int) - 1).toNat = c.2 - 1 := by omega
        simp only [h1, if_true, hn]
      · have h2 : c.2 = 1 := by
          have := hc.2
          omega
        simp [h1, h2]
    rw [hexp]
    simp [specExpand]

/-! ## Claim C10 -/

/-- C10: `safe_int` accepts booleans at its public interface —
`safe_int(True)` is `1` and `safe_int(False)` is `0` (booleans pass
through the intermediate `float` conversion), not the absence marker. -/
theorem c10_safe_int_bools :
    safe_int (.bool true) = .ok (some 1) ∧ safe_int (.bool false) = .ok (some 0) := by
  decide

/-! ## Claim C2

The contract "never raises" fails on the code: `safe_int` only catches
`(ValueError, TypeError)`, so `int(float("inf"))` raises an uncaught
`OverflowError`; and `safe_decimal("nan")` propagates quiet NaN through
`quantize` into the unguarded ordered comparison
`abs(dec) >= Decimal("10000000000")`, which signals `InvalidOperation`
outside any `try`.  `safe_str` by contrast can raise nothing. -/

/-- C2: the helpers do *not* all satisfy "returns a typed result or the
absence marker and never raises": `safe_int` raises `OverflowError` on
`"inf"` and on the float infinity, `safe_decimal` raises
`InvalidOperation` on `"nan"`, while `safe_str` is total. -/
theorem c2_coercion_helpers_can_raise :
    safe_int (.str "inf") = .error .overflowError ∧
    safe_int (.float (.inf false)) = .error .overflowError ∧
    safe_decimal (.str "nan") = .error .invalidOperation ∧
    ∀ v : PyVal, ∃ r : Option String, safe_str v = .ok r := by
  refine ⟨by decide, by decide, by decide, ?_⟩
  intro v
  cases v with
  | str s =>
    by_cases h : pyStrip s = ""
    · exact ⟨Option.none, by simp [safe_str, h]⟩
    · exact ⟨some (pyStrip s), by simp [safe_str, h]⟩
  | none => exact ⟨Option.none, rfl⟩
  | bool b => exact ⟨Option.none, rfl⟩
  | int n => exact ⟨Option.none, rfl⟩
  | float f => exact ⟨Option.none, rfl⟩
  | list l => exact ⟨Option.none, rfl⟩

/-! ## Claim C4 -/

theorem quantize5_shape (d d2 : PyDec) (h : pyDecQuantize5 d = .ok d2) :
    d2 = .nan ∨ ∃ c : Int, d2 = .fin c (-5) := by
  cases d with
  | nan =>
    left
    have h2 : PyDec.nan = d2 := by simpa [pyDecQuantize5] using h
    exact h2.symm
  | inf n => simp [pyDecQuantize5] at h
  | fin c e =>
    right
    simp only [pyDecQuantize5] at h
    split at h
    · exact absurd h (by simp)
    · refine ⟨quantCoeff c e, ?_⟩
      have h2 : PyDec.fin (quantCoeff c e) (-5) = d2 := by simpa using h
      exact h2.symm

/-- C4: the concrete `to_decimal` behaviours hold — `"<1"` gives
`0.99990`, `"123.45"` gives `123.45000`, `"invalid"`, `10^10`, `None`,
non-string non-numeric values and infinities give the absence marker,
and every returned value carries exactly five fractional digits — but
the special value NaN does *not* yield absent: `safe_decimal("nan")`
raises `InvalidOperation` from the unguarded magnitude comparison. -/
theorem c4_to_decimal_behaviour :
    safe_decimal (.str "<1") = .ok (some (.fin 99990 (-5))) ∧
    safe_decimal (.str "123.45") = .ok (some (.fin 12345000 (-5))) ∧
    safe_decimal (.str "invalid") = .ok Option.none ∧
    safe_decimal (.int 10000000000) = .ok Option.none ∧
    safe_decimal .none = .ok Option.none ∧
    safe_decimal (.list ["x"]) = .ok Option.none ∧
    safe_decimal (.str "Infinity") = .ok Option.none ∧
    safe_decimal (.str "inf") = .ok Option.none ∧
    safe_decimal (.str "nan") = .error .invalidOperation ∧
    ∀ (v : PyVal) (d : PyDec), safe_decimal v = .ok (some d) →
      ∃ c : Int, d = .fin c (-5) := by
  refine ⟨by decide, by decide, by decide, by decide, by decide, by decide,
    by decide, by decide, by decide, ?_⟩
  intro v d h
  have hfin : ∀ dec : PyDec, decFinish dec = .ok (some d) →
      ∃ c : Int, d = .fin c (-5) := by
    intro dec hd
    unfold decFinish at hd
    split at hd
    · exact absurd hd (by simp)
    · exact absurd hd (by simp)
    · rename_i dec2 hq
      split at hd
      · exact absurd hd (by simp)
      · exact absurd hd (by simp)
      · rename_i habs
        simp only [Except.ok.injEq, Option.some.injEq] at hd
        rcases quantize5_shape dec dec2 hq with hnan | hfin2
        · rw [hnan] at habs
          simp [pyDecAbsGe1e10] at habs
        · rw [← hd]
          exact hfin2
  unfold safe_decimal at h
  split at h
  · exact absurd h (by simp)
  · split at h
    · exact absurd h (by simp)
    · split at h
      · exact absurd h (by simp)
      · split at h
        · exact absurd h (by simp)
        · rename_i dec hdec
          exact hfin dec h

/-- Witness for the universal clause of `c4_to_decimal_behaviour` at the
concrete input `"<1"`. -/
theorem c4_witness :
    ∃ c : Int, PyDec.fin 99990 (-5) = PyDec.fin c (-5) :=
  c4_to_decimal_behaviour.2.2.2.2.2.2.2.2.2 (.str "<1") (.fin 99990 (-5)) (by decide)

/-! ## Claim C1 -/

/-- C1: conversion does *not* survive every malformed span value.  A
non-numeric `colspan` such as `"abc"` raises `ValueError` from
`int(th.get("colspan", 1))` and the cell text is lost with the aborted
conversion; only the numeric malformed values (zero, negative) degrade
to a span of 1 with the text preserved, as shown by the `colspan="0"`
conversion. -/
theorem c1_malformed_colspan_raises :
    convert_html_to_markdown
        "<table><tr><td colspan=\"abc\">Content</td></tr></table>"
      = .error (.pyErr .valueError) ∧
    convert_html_to_markdown
        "<table><tr><td colspan=\"0\">Content</td></tr></table>"
      = .ok "| Content |\n" ∧
    convert_html_to_markdown
        "<table><tr><td colspan=\"-1\">Content</td></tr></table>"
      = .ok "| Content |\n" := by
  refine ⟨by decide, by decide, by decide⟩

/-! ## Claim C8 -/

/-- C8: `convert_html_to_table` returns the empty string for `None`
input, for empty-string input, and for every markup whose parse contains
zero `<tr>` elements (e.g. `"<p>No table</p>"`); these paths perform no
fallible operation, as the total function type records. -/
theorem c8_render_table_empty :
    convert_html_to_table Option.none = "" ∧
    convert_html_to_table (some "") = "" ∧
    convert_html_to_table (some "<p>No table</p>") = "" ∧
    ∀ s : String, ((parseHtml s).findTag "tr").length = 0 →
      convert_html_to_table (some s) = "" := by
  refine ⟨rfl, by decide, by decide, ?_⟩
  intro s h
  unfold convert_html_to_table
  by_cases hs : s = ""
  · simp [hs]
  · simp [hs, h]

/-- Witness for `c8_render_table_empty` at markup with no rows. -/
theorem c8_witness :
    convert_html_to_table (some "<div>x</div>") = "" :=
  c8_render_table_empty.2.2.2 "<div>x</div>" (by decide)

/-! ## Claim C5 -/

/-- C5: the invalid-input-kind `ValueError` is raised exactly for inputs
that are neither a string nor a parsed tree — but a string input does
*not* always return a converted string: a malformed span attribute makes
the conversion raise the table pass's `ValueError` instead of
returning. -/
theorem c5_convert_dispatch :
    (∀ (v : PyVal) (sel : Option String),
      convert_html defaultConfig (.other v) sel = .error .invalidInput) ∧
    (∀ (cfg : ConversionConfig) (s : String) (sel : Option String) (e : ConvErr),
      convert_html cfg (.str s) sel = .error e → e ≠ .invalidInput) ∧
    (∀ (cfg : ConversionConfig) (n : Node) (sel : Option String) (e : ConvErr),
      convert_html cfg (.soup n) sel = .error e → e ≠ .invalidInput) ∧
    convert_html_to_markdown "<table><tr><td colspan=\"x\">T</td></tr></table>"
      = .error (.pyErr .valueError) := by
  refine ⟨fun v sel => rfl, ?_, ?_, by decide⟩
  · intro cfg s sel e h
    cases hres : convert_html_str cfg s sel with
    | ok r => simp [convert_html, hres] at h
    | error e2 =>
      simp only [convert_html, hres, Except.error.injEq] at h
      rw [← h]
      simp
  · intro cfg n sel e h
    cases hres : convert_html_soup cfg n sel with
    | ok r => simp [convert_html, hres] at h
    | error e2 =>
      simp only [convert_html, hres, Except.error.injEq] at h
      rw [← h]
      simp

/-- Witness for `c5_convert_dispatch`: a concrete string input whose
conversion raises, and the raised error is not the invalid-input kind. -/
theorem c5_witness :
    (ConvErr.pyErr .valueError) ≠ ConvErr.invalidInput :=
  c5_convert_dispatch.2.1 defaultConfig
    "<table><tr><td colspan=\"x\">T</td></tr></table>" Option.none
    (.pyErr .valueError) (by decide)

/-! ## Claim C7 -/

/-- C7: a valid positive-integer span `n` expands a cell into exactly
its text followed by `n - 1` empty placeholders — `n` columns in all —
for header (`th`) and data (`td`) cells alike, honoring values such as
1, 2, 3, 10, 100 exactly. -/
theorem c7_span_expansion :
    (∀ cells : List (String × Nat), (∀ c ∈ cells, pyStrip c.1 = c.1 ∧ 1 ≤ c.2) →
      expandCells (cells.map fun c => cellNode "th" c.1 c.2) = .ok (specExpand cells)) ∧
    (∀ cells : List (String × Nat), (∀ c ∈ cells, pyStrip c.1 = c.1 ∧ 1 ≤ c.2) →
      expandCells (cells.map fun c => cellNode "td" c.1 c.2) = .ok (specExpand cells)) ∧
    (∀ (text : String) (n : Nat), pyStrip text = text → 1 ≤ n →
      expandCells [cellNode "td" text n] = .ok (text :: List.replicate (n - 1) "") ∧
      (specExpand [(text, n)]).length = n) := by
  refine ⟨fun cells h => expandCells_spec "th" cells h,
    fun cells h => expandCells_spec "td" cells h, ?_⟩
  intro text n htext hn
  have h := expandCells_spec "td" [(text, n)] (by simpa using ⟨htext, hn⟩)
  constructor
  · simpa [specExpand] using h
  · simp [specExpand]
    omega

/-- Witness for `c7_span_expansion` at spans 3 and 1. -/
theorem c7_witness :
    expandCells [cellNode "th" "A" 3, cellNode "th" "B" 1] = .ok ["A", "", "", "B"] := by
  have h := c7_span_expansion.1 [("A", 3), ("B", 1)] (by decide)
  simpa [specExpand] using h

/-! ## Claim C3 -/

theorem findAllL_tdCells (p : String → Bool) (cells : List (String × Nat)) :
    NodeList.findAllL p (NodeList.ofList (cells.map fun c => cellNode "td" c.1 c.2)) =
      if p "td" then cells.map (fun c => cellNode "td" c.1 c.2) else [] := by
  induction cells with
  | nil => by_cases h : p "td" <;> simp [NodeList.ofList, NodeList.findAllL, h]
  | cons c cs ih =>
    simp only [cellNode] at ih ⊢
    by_cases h : p "td" <;>
      simp [NodeList.ofList, NodeList.findAllL, h, ih]

theorem findTag_tdRow_th (cells : List (String × Nat)) :
    (tdRow cells).findTag "th" = [] := by
  simp [tdRow, Node.findTag, Node.findAll, findAllL_tdCells]

theorem findTag_tdRow_td (cells : List (String × Nat)) :
    (tdRow cells).findTag "td" = cells.map fun c => cellNode "td" c.1 c.2 := by
  simp [tdRow, Node.findTag, Node.findAll, findAllL_tdCells]

/-- C3 counterexample: in the table
`<table><tr><th>A</th></tr><tr><th>B</th><td>C</td></tr></table>` the
second row is not the header row and is not composed solely of header
cells, yet its normal cell text `C` is absent from the conversion
output — the data pass skips every row containing *any* header cell. -/
theorem c3_counterexample_mixed_row :
    convert_html_to_markdown
        "<table><tr><th>A</th></tr><tr><th>B</th><td>C</td></tr></table>"
      = .ok "| A |\n| --- |\n" ∧
    strContains "| A |\n| --- |\n" "C" = false :=
  ⟨by decide, by decide⟩

/-- C3 amended: in the data pass, a row containing *any* `<th>` cell
contributes nothing (even its `<td>` cells are dropped); a row with no
header cells and at least one `<td>` cell has its expanded normal cells
emitted as a pipe-delimited row. -/
theorem c3_data_row_pass_amended :
    (∀ (hIdx : Option Nat) (i : Nat) (tr : Node) (rest : List Node),
      (tr.findTag "th").isEmpty = false →
      dataLinesAux hIdx i (tr :: rest) = dataLinesAux hIdx (i + 1) rest) ∧
    (∀ (hIdx : Option Nat) (i : Nat) (cells : List (String × Nat)) (rest : List Node),
      hIdx ≠ some i → cells ≠ [] →
      (∀ c ∈ cells, pyStrip c.1 = c.1 ∧ 1 ≤ c.2) →
      dataLinesAux hIdx i (tdRow cells :: rest) =
        (dataLinesAux hIdx (i + 1) rest).map
          (fun out => pipeRow (specExpand cells) :: out)) := by
  constructor
  · intro hIdx i tr rest hth
    by_cases hh : hIdx = some i
    · simp [dataLinesAux, hh]
    · simp [dataLinesAux, hh, hth]
  · intro hIdx i cells rest hh hne hcells
    obtain ⟨x, xs, rfl⟩ := List.exists_cons_of_ne_nil hne
    have hth := findTag_tdRow_th (x :: xs)
    have htd := findTag_tdRow_td (x :: xs)
    have hexp := expandCells_spec "td" (x :: xs) hcells
    simp only [List.map_cons] at hexp
    simp [dataLinesAux, hh, hth, htd, hexp]
    cases hres : dataLinesAux hIdx (i + 1) rest <;> simp [Except.map, hres, hexp]

/-- Witness for `c3_data_row_pass_amended` at a one-cell row. -/
theorem c3_witness :
    dataLinesAux Option.none 0 [tdRow [("C", 1)]] = .ok ["| C |"] := by
  have h := c3_data_row_pass_amended.2 Option.none 0 [("C", 1)] []
    (by simp) (by simp) (by decide)
  simpa [specExpand, pipeRow, dataLinesAux] using h

/-! ## Claim C6 -/

theorem dropWhile_head_false (p : Char → Bool) (l : List Char) (c : Char)
    (h : (l.dropWhile p).head? = some c) : p c = false := by
  induction l with
  | nil => simp [List.dropWhile] at h
  | cons x xs ih =>
    by_cases hx : p x
    · rw [List.dropWhile_cons_of_pos hx] at h
      exact ih h
    · rw [List.dropWhile_cons_of_neg hx] at h
      simp only [List.head?_cons, Option.some.injEq] at h
      rw [← h]
      simpa using hx

theorem pyStripL_getLast (cs : List Char) (c : Char)
    (h : (pyStripL cs).getLast? = some c) : isPySpace c = false := by
  unfold pyStripL at h
  rw [List.getLast?_reverse] at h
  exact dropWhile_head_false _ _ _ h

theorem nlCount_takeWhile_ne (l : List Char) :
    nlCount (l.takeWhile (· ≠ '\n')) = 0 := by
  unfold nlCount
  rw [List.countP_eq_zero]
  intro c hc
  have := List.mem_takeWhile_imp hc
  simpa using this

theorem nlCount_afterLastNl (l : List Char) : nlCount (afterLastNl l) = 0 := by
  unfold afterLastNl nlCount
  rw [List.countP_reverse, List.countP_eq_zero]
  intro c hc
  have := List.mem_takeWhile_imp hc
  simpa using this

theorem hasNlNl_mid (a b : List Char) : hasNlNl (a ++ '\n' :: '\n' :: b) = true := by
  induction a with
  | nil => simp [hasNlNl]
  | cons x xs ih =>
    cases xs with
    | nil => simp [hasNlNl]
    | cons y ys => simpa [hasNlNl] using Or.inr ih

theorem procRun_ok (r : List Char) : okRun (procRun r) := by
  unfold procRun
  by_cases h : nlCount r ≤ 1
  · rw [if_pos h]
    exact Or.inl h
  · rw [if_neg h]
    right
    constructor
    · have h1 := nlCount_takeWhile_ne r
      have h2 := nlCount_afterLastNl r
      unfold nlCount at h1 h2 ⊢
      rw [List.countP_append, List.countP_cons, List.countP_cons, h1, h2]
      simp
    · exact hasNlNl_mid _ _

/-- Strengthened invariant for the space-collapsing machine. -/
theorem csAux_invariant (cs : List Char) :
    (∀ b, noTwoSpaces (csAux b cs) = true) ∧
    (∀ c rest, csAux true cs = c :: rest → c ≠ ' ') := by
  induction cs with
  | nil => exact ⟨fun b => rfl, fun c rest h => by simp [csAux] at h⟩
  | cons x xs ih =>
    by_cases hx : x = ' '
    · subst hx
      refine ⟨?_, ?_⟩
      · intro b
        cases b with
        | true => simpa [csAux] using ih.1 true
        | false =>
          simp only [csAux, if_pos rfl]
          cases hres : csAux true xs with
          | nil => simp [noTwoSpaces]
          | cons d l =>
            have hd : d ≠ ' ' := ih.2 d l hres
            have hnts : noTwoSpaces (d :: l) = true := by
              rw [← hres]
              exact ih.1 true
            simp [noTwoSpaces, hd, hnts]
      · intro c rest h
        simp only [csAux, if_pos rfl] at h
        exact ih.2 c rest h
    · refine ⟨?_, ?_⟩
      · intro b
        simp only [csAux, if_neg hx]
        cases hres : csAux false xs with
        | nil => simp [noTwoSpaces]
        | cons d l =>
          have hnts : noTwoSpaces (d :: l) = true := by
            rw [← hres]
            exact ih.1 false
          simp [noTwoSpaces, hx, hnts]
      · intro c rest h
        simp only [csAux, if_neg hx, List.cons.injEq] at h
        rw [← h.1]
        exact hx

/-- C6: the cleanup output ends with exactly one trailing newline for
every input; the blank-line substitution leaves every whitespace run with
at most one newline or exactly one blank line (two adjacent newlines);
the space substitution leaves no two adjacent spaces; and a concrete
input exhibits blank-line collapsing, space collapsing and HTML-entity
decoding together. -/
theorem c6_cleanup :
    (∀ s : String, ∃ cs : List Char, clean_and_format s = String.mk (cs ++ ['\n']) ∧
      ∀ c : Char, cs.getLast? = some c → c ≠ '\n') ∧
    (∀ r : List Char, okRun (procRun r)) ∧
    (∀ cs : List Char, noTwoSpaces (collapseSpacesL cs) = true) ∧
    clean_and_format "x\n \n\n y  z &amp; &#65;" = "x\n\n y z & A\n" := by
  refine ⟨?_, procRun_ok, fun cs => (csAux_invariant cs).1 false, by decide⟩
  intro s
  refine ⟨pyStripL (htmlUnescapeL (collapseSpacesL (collapseBlankL s.toList))), rfl, ?_⟩
  intro c hc heq
  have := pyStripL_getLast _ _ hc
  rw [heq] at this
  exact absurd this (by decide)

/-- Witness for `c6_cleanup` at a concrete input. -/
theorem c6_witness :
    ∃ cs : List Char, clean_and_format "a" = String.mk (cs ++ ['\n']) ∧
      ∀ c : Char, cs.getLast? = some c → c ≠ '\n' :=
  c6_cleanup.1 "a"

/-! ## Claim C9 -/

theorem rewritePL_textNL (p : String → Bool) (g : Node → Option String)
    (ss : List String) : NodeList.rewritePL p g (textNL ss) = textNL ss := by
  induction ss with
  | nil => rfl
  | cons s rest ih => simp [textNL, NodeList.rewritePL, rewriteP, ih]

theorem rewriteP_doc (p : String → Bool) (g : Node → Option String)
    (ss : List String) (hp : p "[document]" = false) :
    rewriteP p g (docNode ss) = docNode ss := by
  simp [docNode, rewriteP, hp, rewritePL_textNL]

theorem rewriteEL_textNL (p : String → Bool) (g : Node → Except PyErr String)
    (ss : List String) : NodeList.rewriteEL p g (textNL ss) = .ok (textNL ss) := by
  induction ss with
  | nil => rfl
  | cons s rest ih => simp [textNL, NodeList.rewriteEL, rewriteE, ih]

theorem rewriteE_doc (p : String → Bool) (g : Node → Except PyErr String)
    (ss : List String) (hp : p "[document]" = false) :
    rewriteE p g (docNode ss) = .ok (docNode ss) := by
  simp [docNode, rewriteE, hp, rewriteEL_textNL]

theorem processHeadings_doc (ss : List String) :
    processHeadings defaultConfig (docNode ss) = docNode ss := by
  unfold processHeadings headingPass
  rw [rewriteP_doc _ _ _ (by decide), rewriteP_doc _ _ _ (by decide),
    rewriteP_doc _ _ _ (by decide), rewriteP_doc _ _ _ (by decide),
    rewriteP_doc _ _ _ (by decide), rewriteP_doc _ _ _ (by decide)]

theorem processLists_doc (ss : List String) :
    processLists defaultConfig (docNode ss) = docNode ss := by
  unfold processLists olPass ulPass
  rw [rewriteP_doc _ _ _ (by decide), rewriteP_doc _ _ _ (by decide)]

theorem processTables_doc (ss : List String) :
    processTables defaultConfig (docNode ss) = .ok (docNode ss) := by
  unfold processTables
  exact rewriteE_doc _ _ _ (by decide)

theorem applyInline_doc (ss : List String) :
    applyInlineFormatting defaultConfig (docNode ss) = docNode ss := by
  unfold applyInlineFormatting strongPass emPass strikePass codePass linkPass
  rw [rewriteP_doc _ _ _ (by decide), rewriteP_doc _ _ _ (by decide),
    rewriteP_doc _ _ _ (by decide), rewriteP_doc _ _ _ (by decide),
    if_pos (by decide), rewriteP_doc _ _ _ (by decide)]

theorem processCodeBlocks_doc (ss : List String) :
    processCodeBlocks defaultConfig (docNode ss) = docNode ss := by
  unfold processCodeBlocks
  exact rewriteP_doc _ _ _ (by decide)

theorem processBlockquotes_doc (ss : List String) :
    processBlockquotes (docNode ss) = docNode ss := by
  unfold processBlockquotes
  exact rewriteP_doc _ _ _ (by decide)

theorem processHorizontalRules_doc (ss : List String) :
    processHorizontalRules (docNode ss) = docNode ss := by
  unfold processHorizontalRules
  exact rewriteP_doc _ _ _ (by decide)

theorem processStructure_doc (ss : List String) :
    processStructure defaultConfig (docNode ss) = .ok (docNode ss) := by
  unfold processStructure
  rw [if_pos (by decide), processHeadings_doc, processLists_doc, processTables_doc]
  show Except.ok (processHorizontalRules (processBlockquotes
    (processCodeBlocks defaultConfig (docNode ss)))) = _
  rw [processCodeBlocks_doc, processBlockquotes_doc, processHorizontalRules_doc]

theorem processParagraphs_doc (ss : List String) :
    processParagraphs (docNode ss) = docNode ss := by
  unfold processParagraphs
  exact rewriteP_doc _ _ _ (by decide)

theorem convertSoupCore_doc (ss : List String) :
    convertSoupCore defaultConfig (docNode ss) =
      .ok (clean_and_format (docNode ss).getText) := by
  unfold convertSoupCore
  rw [if_pos (by decide), processStructure_doc]
  show Except.ok (clean_and_format (processParagraphs
    (applyInlineFormatting defaultConfig (docNode ss))).getText) = _
  rw [applyInline_doc, processParagraphs_doc]

theorem str_append_nil (s : String) : s ++ "" = s := by
  cases s with
  | mk d =>
    show String.mk (d ++ []) = String.mk d
    rw [List.append_nil]

theorem getText_doc_single (s : String) : (docNode [s]).getText = s := by
  show s ++ "" = s
  exact str_append_nil s

theorem parseGo_nil (f : Nat) (cur : OpenElem) (stack : List OpenElem) :
    parseGo f [] cur stack = finalizeAll cur stack := by
  cases f <;> rfl

theorem takeWhile_all_true {p : Char → Bool} (l : List Char)
    (h : ∀ c ∈ l, p c = true) : l.takeWhile p = l := by
  induction l with
  | nil => rfl
  | cons x xs ih =>
    rw [List.takeWhile_cons_of_pos (h x (by simp)), ih (fun c hc => h c (by simp [hc]))]

theorem dropWhile_all_true {p : Char → Bool} (l : List Char)
    (h : ∀ c ∈ l, p c = true) : l.dropWhile p = [] := by
  induction l with
  | nil => rfl
  | cons x xs ih =>
    rw [List.dropWhile_cons_of_pos (h x (by simp))]
    exact ih (fun c hc => h c (by simp [hc]))

theorem parseHtml_empty : parseHtml "" = docNode [] := rfl

theorem parseHtml_plain (s : String) (c : Char) (cs : List Char)
    (hcs : s.toList = c :: cs) (h : ∀ x ∈ s.toList, x ≠ '<') :
    parseHtml s = docNode [String.mk (htmlUnescapeL s.toList)] := by
  have hall : ∀ x ∈ s.toList, (fun y => decide (y ≠ '<')) x = true := by
    intro x hx
    simpa using h x hx
  unfold parseHtml
  rw [hcs]
  have hc : (c = '<') = False := by
    simpa using h c (by rw [hcs]; simp)
  rw [hcs] at hall
  show parseGo (s.length + 1) (c :: cs) (OpenElem.mk "[document]" [] []) [] = _
  simp only [parseGo, hc, if_false]
  rw [takeWhile_all_true (c :: cs) hall, dropWhile_all_true (c :: cs) hall]
  rw [parseGo_nil]
  rw [← hcs]
  rfl

theorem unesc_id_of_no_amp (s : String) (h : ∀ c ∈ s.toList, c ≠ '&') :
    String.mk (htmlUnescapeL s.toList) = s := by
  rw [htmlUnescapeL_no_amp s.toList h]
  rfl

theorem nlCount_zero_of_not_mem (l : List Char) (h : '\n' ∉ l) : nlCount l = 0 := by
  unfold nlCount
  rw [List.countP_eq_zero]
  intro c hc
  simp only [decide_eq_true_eq]
  intro heq
  rw [heq] at hc
  exact h hc

theorem procRun_no_nl (r : List Char) (h : '\n' ∉ r) : procRun r = r := by
  unfold procRun
  rw [if_pos]
  rw [nlCount_zero_of_not_mem r h]
  omega

theorem cbAux_no_nl (cs : List Char) : ∀ buf : List Char,
    '\n' ∉ buf → '\n' ∉ cs → cbAux buf cs = buf.reverse ++ cs := by
  induction cs with
  | nil =>
    intro buf hb _
    show procRun buf.reverse = buf.reverse ++ []
    rw [procRun_no_nl buf.reverse (by simpa using hb), List.append_nil]
  | cons c cs ih =>
    intro buf hb hc
    have hcn : c ≠ '\n' := by
      intro heq
      rw [heq] at hc
      exact hc (by simp)
    have hcs : '\n' ∉ cs := fun hx => hc (by simp [hx])
    by_cases hws : isPySpace c
    · show cbAux buf (c :: cs) = _
      rw [show cbAux buf (c :: cs) = cbAux (c :: buf) cs by simp [cbAux, hws]]
      rw [ih (c :: buf) (by simp [hb, Ne.symm hcn, hcn]) hcs]
      simp
    · rw [show cbAux buf (c :: cs) = procRun buf.reverse ++ c :: cbAux [] cs by
        simp [cbAux, hws]]
      rw [procRun_no_nl buf.reverse (by simpa using hb)]
      rw [ih [] (by simp) hcs]
      simp

theorem collapseBlankL_no_nl (cs : List Char) (h : '\n' ∉ cs) :
    collapseBlankL cs = cs := by
  unfold collapseBlankL
  rw [cbAux_no_nl cs [] (by simp) h]
  simp

theorem csAux_id (cs : List Char) : ∀ b : Bool,
    noTwoSpaces cs = true → (b = true → cs.head? ≠ some ' ') → csAux b cs = cs := by
  induction cs with
  | nil => intro b _ _; rfl
  | cons c cs ih =>
    intro b hnts hb
    have htail : noTwoSpaces cs = true := by
      cases cs with
      | nil => rfl
      | cons d l =>
        simp only [noTwoSpaces, Bool.and_eq_true] at hnts
        exact hnts.2
    by_cases hc : c = ' '
    · subst hc
      cases b with
      | true => exact absurd rfl (hb rfl)
      | false =>
        show ' ' :: csAux true cs = ' ' :: cs
        rw [ih true htail ?hh]
        case hh =>
          intro _
          cases cs with
          | nil => simp
          | cons d l =>
            simp only [noTwoSpaces, Bool.and_eq_true] at hnts
            simp only [List.head?_cons, ne_eq, Option.some.injEq]
            intro hd
            rw [hd] at hnts
            simpa using hnts.1
    · show (if c = ' ' then _ else c :: csAux false cs) = c :: cs
      rw [if_neg hc, ih false htail (by simp)]

theorem collapseSpacesL_id (cs : List Char) (h : noTwoSpaces cs = true) :
    collapseSpacesL cs = cs :=
  csAux_id cs false h (by simp)

theorem mem_of_head?_eq {α : Type} (l : List α) (a : α) (h : l.head? = some a) :
    a ∈ l := by
  cases l with
  | nil => simp at h
  | cons x xs =>
    simp only [List.head?_cons, Option.some.injEq] at h
    rw [← h]
    simp

theorem mem_of_getLast?_eq {α : Type} (l : List α) (a : α)
    (h : l.getLast? = some a) : a ∈ l := by
  rw [← List.head?_reverse] at h
  have := mem_of_head?_eq _ _ h
  exact List.mem_reverse.mp this

theorem dropWhile_head_id (p : Char → Bool) (l : List Char)
    (h : ∀ c, l.head? = some c → p c = false) : l.dropWhile p = l := by
  cases l with
  | nil => rfl
  | cons c rest => exact List.dropWhile_cons_of_neg (by simp [h c rfl])

theorem pyStripL_id (cs : List Char)
    (h1 : ∀ c, cs.head? = some c → isPySpace c = false)
    (h2 : ∀ c, cs.getLast? = some c → isPySpace c = false) :
    pyStripL cs = cs := by
  unfold pyStripL
  rw [dropWhile_head_id _ _ h1]
  rw [dropWhile_head_id _ _ (by
    intro c hc
    rw [List.head?_reverse] at hc
    exact h2 c hc)]
  exact List.reverse_reverse cs

theorem clean_and_format_nice (s : String) (hm : ∀ c ∈ s.toList, c ≠ '<' ∧ c ≠ '&')
    (hn : niceTextB s = true) : clean_and_format s = s ++ "\n" := by
  unfold niceTextB at hn
  simp only [Bool.and_eq_true] at hn
  obtain ⟨⟨⟨hws, hnts⟩, hhead⟩, hlast⟩ := hn
  have hnl : '\n' ∉ s.toList := by
    intro hmem
    have hx := List.all_eq_true.mp hws '\n' hmem
    simp [isPySpace] at hx
  have hspace : ∀ c ∈ s.toList, isPySpace c = true → c = ' ' := by
    intro c hc hw
    have := List.all_eq_true.mp hws c hc
    simp only [Bool.or_eq_true, Bool.not_eq_true'] at this
    rcases this with h | h
    · rw [h] at hw; exact absurd hw (by simp)
    · simpa using h
  unfold clean_and_format
  rw [collapseBlankL_no_nl s.toList hnl, collapseSpacesL_id s.toList hnts,
    htmlUnescapeL_no_amp s.toList (fun c hc => (hm c hc).2)]
  rw [pyStripL_id s.toList ?h1 ?h2]
  case h1 =>
    intro c hc
    by_cases hw : isPySpace c
    · have hmem : c ∈ s.toList := mem_of_head?_eq _ _ hc
      have hcsp := hspace c hmem hw
      rw [hcsp] at hc
      rw [hc] at hhead
      simp at hhead
    · simpa using hw
  case h2 =>
    intro c hc
    by_cases hw : isPySpace c
    · have hmem : c ∈ s.toList := mem_of_getLast?_eq _ _ hc
      have hcsp := hspace c hmem hw
      rw [hcsp] at hc
      rw [hc] at hlast
      simp at hlast
    · simpa using hw
  show String.mk s.toList ++ "\n" = s ++ "\n"
  rfl

/-- The full conversion on markup-free text reduces to the cleanup step. -/
theorem convert_plain_reduces (s : String)
    (h : ∀ c ∈ s.toList, c ≠ '<' ∧ c ≠ '&') :
    convert_html_to_markdown s = .ok (clean_and_format s) := by
  have hstr : convert_html_str defaultConfig s Option.none = .ok (clean_and_format s) := by
    unfold convert_html_str convert_html_soup
    cases hcs : s.toList with
    | nil =>
      have hs : s = "" := by
        cases s with
        | mk d =>
          simp only [String.toList] at hcs
          rw [hcs]
      rw [hs, parseHtml_empty]
      rw [show (match (Option.none : Option String) with
        | some sel => (selectOne (docNode []) sel).getD (docNode [])
        | Option.none => docNode []) = docNode [] from rfl]
      rw [convertSoupCore_doc]
      rfl
    | cons c cs =>
      rw [parseHtml_plain s c cs hcs (fun x hx => (h x hx).1)]
      rw [unesc_id_of_no_amp s (fun x hx => (h x hx).2)]
      rw [show (match (Option.none : Option String) with
        | some sel => (selectOne (docNode [s]) sel).getD (docNode [s])
        | Option.none => docNode [s]) = docNode [s] from rfl]
      rw [convertSoupCore_doc]
      rw [getText_doc_single]
  show (match convert_html_str defaultConfig s Option.none with
    | Except.ok r => Except.ok r
    | Except.error e => Except.error (ConvErr.pyErr e)) = Except.ok (clean_and_format s)
  rw [hstr]

/-- C9 counterexample: `"a  b"` contains no markup, yet conversion
returns `"a b\n"`, not the text itself plus a newline — the cleanup
collapses the interior space run. -/
theorem c9_counterexample_double_space :
    convert_html_to_markdown "a  b" = .ok "a b\n" ∧
    ("a b\n" : String) ≠ "a  b" ++ "\n" :=
  ⟨by decide, by decide⟩

/-- C9 amended: converting markup-free text yields the cleanup-normalized
text plus exactly one trailing newline (`clean_and_format` applied to the
input); when the text's whitespace is already in normal form the original
text comes back verbatim plus one newline. -/
theorem c9_plain_text_amended :
    (∀ s : String, (∀ c ∈ s.toList, c ≠ '<' ∧ c ≠ '&') →
      convert_html_to_markdown s = .ok (clean_and_format s)) ∧
    (∀ s : String, (∀ c ∈ s.toList, c ≠ '<' ∧ c ≠ '&') → niceTextB s = true →
      convert_html_to_markdown s = .ok (s ++ "\n")) := by
  refine ⟨convert_plain_reduces, ?_⟩
  intro s h hn
  rw [convert_plain_reduces s h, clean_and_format_nice s h hn]

/-- Witness for `c9_plain_text_amended` at a concrete plain text. -/
theorem c9_witness :
    convert_html_to_markdown "Hello world" = .ok ("Hello world" ++ "\n") :=
  c9_plain_text_amended.2 "Hello world" (by decide) (by decide)

end LuminNexus
